import Mathlib

/-!
Shallow embedding of the OKX grid-trading engine (`src/engine.py`,
class `GridEngine`) over exact rational arithmetic.  Python float
expressions are modelled by the same expressions over `ℚ`; the literal
`1e-12` dust threshold of the ledger loop is modelled by `eps = 1/10^12`.
Injected venue calls (`place_limit` / `create_order` / `fetch_order`)
are modelled by oracle functions in the context: `some` models a normal
return, `none` models the call raising an exception.  Every request the
engine actually submits to the venue is collected in a list of `Req`
values, so that pre-submission guards ("never sent to the venue") are
statable.
-/

namespace GridBot

/-- Order side, the `'buy'` / `'sell'` strings of the source. -/
inductive Side
  | buy
  | sell
deriving DecidableEq, Repr

/-- One FIFO inventory lot: `{'contracts': ..., 'price': ...}` pushed by
`GridEngine.on_fill` on a buy fill. -/
structure Lot where
  contracts : ℚ
  price : ℚ
deriving DecidableEq, Repr

/-- Per-order metadata, `GridEngine.order_meta[oid]`:
`{'price': ..., 'side': ..., 'last_filled': ...}`. -/
structure OrderMeta where
  price : ℚ
  side : Side
  lastFilled : ℚ
deriving DecidableEq, Repr

/-- One request actually submitted to the venue (a `place_limit` /
`create_order` limit-order call).  `reduceOnly` records whether the
submitted params carried `reduceOnly = True`. -/
structure Req where
  side : Side
  price : ℚ
  qty : ℚ
  reduceOnly : Bool
deriving DecidableEq, Repr

/-- The mutable engine state set up in `GridEngine.__init__`
(lines 59-71): `open_orders` (price → order id, a dict, modelled as an
association list whose keys stay distinct), `order_meta`, the FIFO
`inventory`, `realized_pnl`, `trades_log` and the one-shot
`_first_fill_ignore` flag.  The purely observational `fills_at` and
`equity_series` logs are not needed by any claim and are omitted. -/
structure EngineState where
  openOrders : List (ℚ × String)
  orderMeta : List (String × OrderMeta)
  inventory : List Lot
  realizedPnl : ℚ
  tradesLog : List (Side × ℚ × ℚ)
  firstFillIgnore : Bool
deriving DecidableEq, Repr

/-- The engine configuration and its external collaborators:
precision rounding `p_prec` / `q_prec`, the venue oracle for limit-order
placement (`some oid` = accepted, `none` = the call raised), the cached
price band `(max_buy, min_sell)` returned by `fetch_price_band_cached`,
the reference price returned by `current_mark_or_mid`, the sorted level
list and `GRID_QTY_BY_LEVEL.get(·, 0.0)`, the fee rate and the contract
size. -/
structure Ctx where
  prec : ℚ → ℚ
  qprec : ℚ → ℚ
  venue : Side → ℚ → ℚ → Option String
  maxBuy : ℚ
  minSell : ℚ
  px : ℚ
  levels : List ℚ
  gridQty : ℚ → ℚ
  feeRate : ℚ
  contractSize : ℚ

/-- The dust threshold `1e-12` used by the ledger loop in `on_fill`. -/
def eps : ℚ := 1 / 10 ^ 12

/-- The state built by `GridEngine.__init__`: empty books, zero realized
PnL, and `_first_fill_ignore = bool(init_position)`. -/
def initState (initPosition : Bool) : EngineState :=
  { openOrders := []
    orderMeta := []
    inventory := []
    realizedPnl := 0
    tradesLog := []
    firstFillIgnore := initPosition }

/-- Membership of the `open_orders` dict: `open_orders.get(price)`. -/
def findOrder (price : ℚ) : List (ℚ × String) → Option String
  | [] => none
  | e :: rest => if e.1 = price then some e.2 else findOrder price rest

/-- Removal from the `open_orders` dict (`open_orders.pop(price, None)`);
since the keys are distinct this filter removes exactly that entry. -/
def removeOrder (price : ℚ) (l : List (ℚ × String)) : List (ℚ × String) :=
  l.filter (fun e => e.1 ≠ price)

/-- Lookup in the `order_meta` dict. -/
def findMeta (oid : String) : List (String × OrderMeta) → Option OrderMeta
  | [] => none
  | e :: rest => if e.1 = oid then some e.2 else findMeta oid rest

/-- Removal from the `order_meta` dict (`order_meta.pop(oid, None)`). -/
def removeMeta (oid : String) (l : List (String × OrderMeta)) :
    List (String × OrderMeta) :=
  l.filter (fun e => e.1 ≠ oid)

/-- `self.order_meta[oid]['last_filled'] = filled`. -/
def setLastFilled (oid : String) (v : ℚ) (l : List (String × OrderMeta)) :
    List (String × OrderMeta) :=
  l.map (fun e => if e.1 = oid then (e.1, { e.2 with lastFilled := v }) else e)

/-- `GridEngine.neighbor_above` (engine.py lines 81-83): the first element
of `[x for x in self.levels if x > p]`. -/
def neighbor_above (levels : List ℚ) (p : ℚ) : Option ℚ :=
  (levels.filter (fun x => p < x)).head?

/-- `GridEngine.neighbor_below` (engine.py lines 85-87): the last element
of `[x for x in self.levels if x < p]`. -/
def neighbor_below (levels : List ℚ) (p : ℚ) : Option ℚ :=
  (levels.filter (fun x => x < p)).getLast?

/-- The sell branch of `GridEngine.on_fill` (engine.py lines 210-222):
`while to_sell > 1e-12 and self.inventory:` consume the head lot,
accrue `(price - lot_price) * use * contract_size` minus both fee legs,
pop the lot when its remainder drops to `<= 1e-12`.  Returns the
remaining queue and the total accrued to `realized_pnl`.
In the branch keeping a truncated head lot the source loop also stops:
there `use = min to_sell lot_contracts` with `lot_contracts - use > eps`
forces `use = to_sell`, so the next loop guard `to_sell - use > 1e-12`
is false. -/
def sellConsume (c : Ctx) (sellPrice : ℚ) : ℚ → List Lot → List Lot × ℚ
  | _, [] => ([], 0)
  | toSell, lot :: rest =>
    if eps < toSell then
      let use := min toSell lot.contracts
      let pnl := (sellPrice - lot.price) * (use * c.contractSize)
      let fees := c.feeRate * sellPrice * (use * c.contractSize)
        + c.feeRate * lot.price * (use * c.contractSize)
      let rem := lot.contracts - use
      if rem ≤ eps then
        let r := sellConsume c sellPrice (toSell - use) rest
        (r.1, pnl - fees + r.2)
      else
        ({ contracts := rem, price := lot.price } :: rest, pnl - fees)
    else (lot :: rest, 0)

/-- `GridEngine.on_fill` (engine.py lines 203-222): append to the trade
log; a buy pushes a new FIFO lot, a sell consumes from the head of the
queue accruing realized PnL. -/
def on_fill (c : Ctx) (s : EngineState) (side : Side) (price contracts : ℚ) :
    EngineState :=
  let s := { s with tradesLog := s.tradesLog ++ [(side, price, contracts)] }
  match side with
  | Side.buy => { s with inventory := s.inventory ++ [⟨contracts, price⟩] }
  | Side.sell =>
    let r := sellConsume c price contracts s.inventory
    { s with inventory := r.1, realizedPnl := s.realizedPnl + r.2 }

/-- Total contracts held in the FIFO queue. -/
def totalContracts (l : List Lot) : ℚ := (l.map Lot.contracts).sum

/-- Result of `safe_place`: the new state, the returned value (`some oid`
for the placed order, `none` when the function returns `None`), and the
requests that were actually submitted to the venue. -/
structure PlaceOut where
  state : EngineState
  result : Option String
  sent : List Req
deriving Repr

/-- `GridEngine.safe_place` (engine.py lines 145-165): round price and
quantity, return `None` early when the price already has an open order
(before any venue call), skip a buy above `max_buy` or a sell below
`min_sell` (band guard, before any venue call), otherwise submit the
limit order; on success record it in `open_orders` / `order_meta`, on a
venue exception return `None`.  The injected `place_limit` of
`src/main.py` submits with params `tdMode` only, so `reduceOnly` is
`false` on this path. -/
def safe_place (c : Ctx) (s : EngineState) (side : Side) (price qty : ℚ) :
    PlaceOut :=
  let price := c.prec price
  let qty := c.qprec qty
  if (findOrder price s.openOrders).isSome then ⟨s, none, []⟩
  else if side = Side.buy ∧ c.maxBuy < price then ⟨s, none, []⟩
  else if side = Side.sell ∧ price < c.minSell then ⟨s, none, []⟩
  else
    match c.venue side price qty with
    | some oid =>
      ⟨{ s with
          openOrders := s.openOrders ++ [(price, oid)]
          orderMeta := s.orderMeta ++ [(oid, ⟨price, side, 0⟩)] },
        some oid, [⟨side, price, qty, false⟩]⟩
    | none => ⟨s, none, [⟨side, price, qty, false⟩]⟩

/-- `GridEngine.safe_cancel_by_price` (engine.py lines 167-178): pop the
entry at the rounded price; a venue cancel failure is only logged, the
local state is cleared either way.  Returns the `True`/`False` result. -/
def safe_cancel_by_price (c : Ctx) (s : EngineState) (price : ℚ) :
    EngineState × Bool :=
  let p := c.prec price
  match findOrder p s.openOrders with
  | none => (s, false)
  | some oid =>
    ({ s with
        openOrders := removeOrder p s.openOrders
        orderMeta := removeMeta oid s.orderMeta }, true)

/-- `GridEngine.cancel_all_open_orders` (engine.py lines 180-188): pop
every `open_orders` entry and its metadata; venue failures only logged. -/
def cancel_all (s : EngineState) : EngineState :=
  { s with
      openOrders := []
      orderMeta :=
        s.orderMeta.filter (fun e => s.openOrders.all (fun o => o.2 ≠ e.1)) }

/-- The replenishment body of `GridEngine.handle_post_close`
(engine.py lines 233-250): when the closed level itself has positive
configured quantity, place the opposite side at the strict neighbor —
a closed buy places a sell one level above, a closed sell places a buy
one level below — only when that neighbor has positive configured
quantity and no open order.  Returns the new state and the venue
requests submitted. -/
def replenish (c : Ctx) (s : EngineState) (side : Side) (price : ℚ) :
    EngineState × List Req :=
  if c.gridQty price ≤ 0 then (s, [])
  else
    match side with
    | Side.buy =>
      match neighbor_above c.levels price with
      | some up =>
        if 0 < c.gridQty up ∧ (findOrder up s.openOrders).isNone then
          let o := safe_place c s Side.sell up (c.gridQty up)
          (o.state, o.sent)
        else (s, [])
      | none => (s, [])
    | Side.sell =>
      match neighbor_below c.levels price with
      | some dn =>
        if 0 < c.gridQty dn ∧ (findOrder dn s.openOrders).isNone then
          let o := safe_place c s Side.buy dn (c.gridQty dn)
          (o.state, o.sent)
        else (s, [])
      | none => (s, [])

/-- `GridEngine.handle_post_close` (engine.py lines 225-250): when the
one-shot `_first_fill_ignore` flag is armed (lines 228-231), consume it
and return with no replenishment; otherwise run the replenishment
rule. -/
def handle_post_close (c : Ctx) (s : EngineState) (side : Side) (price : ℚ) :
    EngineState × List Req :=
  if s.firstFillIgnore then ({ s with firstFillIgnore := false }, [])
  else replenish c s side price

/-- A parsed command object: each optional field models presence of the
key in the JSON line (`cmd["k"]` raises `KeyError` on an absent key,
`cmd.get("k", d)` defaults). -/
structure CmdObj where
  op : Option String
  price : Option ℚ
  side : Option Side
  contracts : Option ℚ
  reduceOnly : Option Bool
deriving DecidableEq, Repr

/-- One line of the command file: either text that `json.loads` rejects,
or a parsed command object. -/
inductive Line
  | badJson
  | cmd (co : CmdObj)
deriving DecidableEq, Repr

/-- One iteration of the command loop in `GridEngine.process_commands`
(engine.py lines 265-305), after a successful `json.loads`, dispatching
on `cmd.get("op")` as the source's `if`/`elif` chain does.  An
`Except.error` models an exception that escapes the loop body — e.g.
`KeyError` from a `cmd["..."]` access on an absent key — and is caught
only by the outer handler of `process_commands`.  Every such raise
happens before the branch mutates any state. -/
def processCmd (c : Ctx) (s : EngineState) (co : CmdObj) :
    Except Unit (EngineState × List Req) :=
  if co.op = some "cancel_all" then Except.ok (cancel_all s, [])
  else if co.op = some "cancel_by_price" then
    match co.price with
    | none => Except.error ()
    | some p0 => Except.ok ((safe_cancel_by_price c s (c.prec p0)).1, [])
  else if co.op = some "place_limit" then
    match co.side, co.price, co.contracts with
    | some side, some price0, some cts =>
      let price := c.prec price0
      let ro := co.reduceOnly.getD (decide (side = Side.sell))
      let roParam := decide (side = Side.sell) && ro
      if (findOrder price s.openOrders).isSome then Except.ok (s, [])
      else
        match c.venue side price cts with
        | some oid =>
          Except.ok
            ({ s with
                openOrders := s.openOrders ++ [(price, oid)]
                orderMeta := s.orderMeta ++ [(oid, ⟨price, side, 0⟩)] },
              [⟨side, price, cts, roParam⟩])
        | none => Except.ok (s, [⟨side, price, cts, roParam⟩])
    | _, _, _ => Except.error ()
  else if co.op = some "hold_level" ∨ co.op = some "cancel_and_hold" then
    match co.price with
    | none => Except.error ()
    | some p0 => Except.ok ((safe_cancel_by_price c s (c.prec p0)).1, [])
  else if co.op = some "restore_level" then
    match co.price with
    | none => Except.error ()
    | some p0 =>
      let p := c.prec p0
      if (findOrder p s.openOrders).isSome then Except.ok (s, [])
      else if c.gridQty p ≤ 0 then Except.ok (s, [])
      else
        let side := if p < c.px then Side.buy else Side.sell
        let o := safe_place c s side p (c.gridQty p)
        Except.ok (o.state, o.sent)
  else Except.ok (s, [])

/-- The per-line loop of `process_commands`: a line `json.loads` rejects
is skipped (`continue`); an exception from a command body escapes to the
outer `except`, which logs and returns — the remaining lines of the
batch are dropped.  The failing command itself mutates nothing before it
raises (every raise is a field access at the top of its branch). -/
def processLines (c : Ctx) (s : EngineState) : List Line → EngineState × List Req
  | [] => (s, [])
  | Line.badJson :: rest => processLines c s rest
  | Line.cmd co :: rest =>
    match processCmd c s co with
    | Except.ok (s', reqs) =>
      let r := processLines c s' rest
      (r.1, reqs ++ r.2)
    | Except.error _ => (s, [])

/-- `GridEngine.process_commands` (engine.py lines 253-307): read all
non-blank lines, truncate the file (`open(path, "w").close()`), then
process the batch.  Returns the new state, the submitted requests, and
the contents of the command file afterwards (always empty). -/
def process_commands (c : Ctx) (s : EngineState) (queue : List Line) :
    EngineState × List Req × List Line :=
  let r := processLines c s queue
  (r.1, r.2, [])

/-- The fill-increment accounting of one poll iteration (engine.py
lines 368-375): `inc = max(0, filled - last_filled)`; a positive
increment is booked through `on_fill` and `last_filled` is advanced. -/
def pollFillPart (c : Ctx) (oid : String) (m : OrderMeta) (filled : ℚ)
    (s : EngineState) : EngineState :=
  let inc := max 0 (filled - m.lastFilled)
  if 0 < inc then
    let sf := on_fill c s m.side m.price inc
    { sf with orderMeta := setLastFilled oid filled sf.orderMeta }
  else s

/-- The close handling of one poll iteration (engine.py lines 379-382):
pop the order from both books, then run `handle_post_close`. -/
def pollClosePart (c : Ctx) (oid : String) (m : OrderMeta)
    (s : EngineState) : EngineState × List Req :=
  let s2 :=
    { s with
        openOrders := removeOrder m.price s.openOrders
        orderMeta := removeMeta oid s.orderMeta }
  handle_post_close c s2 m.side m.price

/-- `GridEngine.poll_and_handle_fills` (engine.py lines 360-382),
iterating over a snapshot of `order_meta`: fetch the order (a fetch
exception skips the entry), book the fill increment through
`pollFillPart`, and when the order status is closed run
`pollClosePart`.  The fetch oracle returns
`(cumulative filled, is closed)`, with `none` modelling a raise. -/
def pollStep (c : Ctx) (fetch : String → Option (ℚ × Bool)) :
    List (String × OrderMeta) → EngineState → EngineState × List Req
  | [], s => (s, [])
  | (oid, m) :: rest, s =>
    match fetch oid with
    | none => pollStep c fetch rest s
    | some (filled, closed) =>
      let s1 := pollFillPart c oid m filled s
      if closed then
        let r := pollClosePart c oid m s1
        let r' := pollStep c fetch rest r.1
        (r'.1, r.2 ++ r'.2)
      else pollStep c fetch rest s1

/-- `poll_and_handle_fills` applied to the snapshot
`list(self.order_meta.items())` taken at the start of the pass. -/
def poll_and_handle_fills (c : Ctx) (fetch : String → Option (ℚ × Bool))
    (s : EngineState) : EngineState × List Req :=
  pollStep c fetch s.orderMeta s

/-- The per-level loop of `GridEngine._initialize_full_grid_once`
(engine.py lines 390-405): for positive configured quantity, place a
sell above the reference price and a buy below it, skip the level equal
to it; sum the quantities of the sells `safe_place` reported placed.
Returns the state, the submitted requests and the sell total. -/
def initGridStep (c : Ctx) : List ℚ → EngineState → EngineState × List Req × ℚ
  | [], s => (s, [], 0)
  | p :: rest, s =>
    let qty := c.gridQty p
    if qty ≤ 0 then initGridStep c rest s
    else if c.px < p then
      let o := safe_place c s Side.sell p qty
      let r := initGridStep c rest o.state
      (r.1, o.sent ++ r.2.1, (if o.result.isSome then qty else 0) + r.2.2)
    else if p < c.px then
      let o := safe_place c s Side.buy p qty
      let r := initGridStep c rest o.state
      (r.1, o.sent ++ r.2.1, r.2.2)
    else initGridStep c rest s

/-- The ladder part of `_initialize_full_grid_once`.  The optional
market hedge (`_place_market`) that follows places no limit order and
touches neither `open_orders` nor the band guard, so it is outside the
`Req` accounting. -/
def init_full_grid (c : Ctx) (s : EngineState) : EngineState × List Req × ℚ :=
  initGridStep c c.levels s

/-- The input one tick of the main loop consumes: the command-file
content, the order-status oracle for the fill poll, and whether the
snapshot write succeeds (`false` models `_atomic_write_json` raising,
e.g. on a full disk). -/
structure TickIn where
  queue : List Line
  fetch : String → Option (ℚ × Bool)
  snapOk : Bool

/-- One tick of `GridEngine.run_forever` (engine.py lines 420-437):
process commands, poll fills, then attempt the snapshot write.  The
returned flag is whether the tick completed without the snapshot
raising. -/
def tick (c : Ctx) (t : TickIn) (s : EngineState) : EngineState × Bool :=
  let r1 := process_commands c s t.queue
  let r2 := poll_and_handle_fills c t.fetch r1.1
  (r2.1, t.snapOk)

/-- The `while True` of `run_forever`, over a finite trace of tick
inputs.  The surrounding `try` catches only `KeyboardInterrupt`, so an
exception escaping `snapshot_and_dump` leaves the loop: the remaining
ticks are not executed.  Returns the final state and the number of
completed ticks. -/
def runLoop (c : Ctx) : List TickIn → EngineState → EngineState × Nat
  | [], s => (s, 0)
  | t :: ts, s =>
    let r := tick c t s
    if r.2 then
      let r' := runLoop c ts r.1
      (r'.1, r'.2 + 1)
    else (r.1, 0)

/-- Content of a file as a reader sees it: absent, not yet a complete
JSON document, or a complete document. -/
inductive FileContent (α : Type)
  | missing
  | incomplete
  | complete (doc : α)
deriving DecidableEq, Repr

/-- The two files `_atomic_write_json` touches: the target state path
and the temporary file `mkstemp` creates next to it (same directory). -/
structure Fs (α : Type) where
  target : FileContent α
  tmp : FileContent α
deriving DecidableEq, Repr

/-- The filesystem steps of `GridEngine._atomic_write_json`
(engine.py lines 90-102). -/
inductive FsStep
  | createTmp
  | writeHalf
  | writeFull
  | flushTmp
  | fsyncTmp
  | renameTmp
  | cleanupTmp
deriving DecidableEq, Repr

/-- Effect of one step: `mkstemp` creates an empty (hence incomplete)
temporary file; `json.dump` passes through incomplete contents before
the document is complete; `flush`/`fsync` change no content;
`os.replace` atomically installs the temporary file over the target;
the `finally` block removes a leftover temporary file. -/
def fsApply {α : Type} (newDoc : α) (fs : Fs α) : FsStep → Fs α
  | FsStep.createTmp => { fs with tmp := FileContent.incomplete }
  | FsStep.writeHalf => { fs with tmp := FileContent.incomplete }
  | FsStep.writeFull => { fs with tmp := FileContent.complete newDoc }
  | FsStep.flushTmp => fs
  | FsStep.fsyncTmp => fs
  | FsStep.renameTmp => { target := fs.tmp, tmp := FileContent.missing }
  | FsStep.cleanupTmp => { fs with tmp := FileContent.missing }

/-- The step sequence of `_atomic_write_json`: create the temporary file
in the target directory, write the document (`writeHalf` marks the
mid-write window), flush, fsync, rename over the target, then the
`finally` cleanup. -/
def atomicWriteSteps : List FsStep :=
  [FsStep.createTmp, FsStep.writeHalf, FsStep.writeFull, FsStep.flushTmp,
    FsStep.fsyncTmp, FsStep.renameTmp, FsStep.cleanupTmp]

/-- Run a list of filesystem steps. -/
def fsRun {α : Type} (newDoc : α) (fs : Fs α) (steps : List FsStep) : Fs α :=
  steps.foldl (fsApply newDoc) fs

/-- The engine operations that touch the open-order book, for stating
state invariants over a whole engine lifetime. -/
inductive Op
  | placeOp (side : Side) (price qty : ℚ)
  | cancelPriceOp (price : ℚ)
  | cancelAllOp
  | fillOp (side : Side) (price contracts : ℚ)
  | postCloseOp (side : Side) (price : ℚ)
  | lineOp (ln : Line)
  | initGridOp
  | tickOp (t : TickIn)

/-- Apply one engine operation. -/
def applyOp (c : Ctx) (s : EngineState) : Op → EngineState
  | Op.placeOp sd p q => (safe_place c s sd p q).state
  | Op.cancelPriceOp p => (safe_cancel_by_price c s p).1
  | Op.cancelAllOp => cancel_all s
  | Op.fillOp sd p q => on_fill c s sd p q
  | Op.postCloseOp sd p => (handle_post_close c s sd p).1
  | Op.lineOp ln => (processLines c s [ln]).1
  | Op.initGridOp => (init_full_grid c s).1
  | Op.tickOp t => (tick c t s).1

/-- Run a sequence of engine operations. -/
def runOps (c : Ctx) (s : EngineState) (ops : List Op) : EngineState :=
  ops.foldl (applyOp c) s

/-- The C1 invariant: no two open-order entries share a price. -/
def PricesNodup (s : EngineState) : Prop :=
  (s.openOrders.map Prod.fst).Nodup

/-- The opposite side, as replenishment uses it. -/
def oppSide : Side → Side
  | Side.buy => Side.sell
  | Side.sell => Side.buy

/-- The grid level replenishment targets for a close of the given side:
the neighbor above a closed buy, the neighbor below a closed sell. -/
def closeTarget (c : Ctx) (side : Side) (p : ℚ) : Option ℚ :=
  match side with
  | Side.buy => neighbor_above c.levels p
  | Side.sell => neighbor_below c.levels p

/-- The pre-submission band guard condition: a buy must not be above
`max_buy`, a sell must not be below `min_sell`. -/
def bandOk (c : Ctx) (r : Req) : Prop :=
  (r.side = Side.buy → r.price ≤ c.maxBuy)
    ∧ (r.side = Side.sell → c.minSell ≤ r.price)

/-- The requests a command handler submitted (empty when it raised). -/
def reqsOf : Except Unit (EngineState × List Req) → List Req
  | Except.ok o => o.2
  | Except.error _ => []

/-- Iterate `handle_post_close` over a sequence of order-close events. -/
def runCloses (c : Ctx) (s : EngineState) : List (Side × ℚ) → EngineState
  | [] => s
  | e :: rest => runCloses c (handle_post_close c s e.1 e.2).1 rest

/-- How many close events of a sequence hit the armed
`_first_fill_ignore` flag (and are therefore not replenished). -/
def ignoredCloses (c : Ctx) (s : EngineState) : List (Side × ℚ) → Nat
  | [] => 0
  | e :: rest =>
    (if s.firstFillIgnore then 1 else 0)
      + ignoredCloses c (handle_post_close c s e.1 e.2).1 rest

/-- Apply a sequence of fills through `on_fill`. -/
def applyFills (c : Ctx) (s : EngineState) (fills : List (Side × ℚ × ℚ)) :
    EngineState :=
  fills.foldl (fun s f => on_fill c s f.1 f.2.1 f.2.2) s

/-- FIFO consumption shape: the queue after a sell is the queue before
with some oldest lots removed and the then-oldest lot possibly reduced
(same entry price, strictly smaller positive size).  Newer lots are
untouched and order is preserved. -/
def FifoTrunc (inp out : List Lot) : Prop :=
  ∃ k, out = inp.drop k
    ∨ ∃ lot tl cNew, inp.drop k = lot :: tl ∧ 0 < cNew
        ∧ cNew < lot.contracts ∧ out = Lot.mk cNew lot.price :: tl

/-! Concrete instances used by witnesses and counterexamples. -/

/-- A concrete context: identity precision, an always-accepting venue,
a wide band, levels `[100, 105, 110]` each with quantity 1. -/
def wCtx : Ctx :=
  { prec := id
    qprec := id
    venue := fun _ _ _ => some "w1"
    maxBuy := 1000
    minSell := 1
    px := 105
    levels := [100, 105, 110]
    gridQty := fun p => if p = 100 ∨ p = 105 ∨ p = 110 then 1 else 0
    feeRate := 1 / 1000
    contractSize := 1 }

/-- `wCtx` with a tight band: `max_buy = 110`, `min_sell = 95`. -/
def wCtxTight : Ctx :=
  { wCtx with maxBuy := 110, minSell := 95 }

/-- A state holding one open order at price 100. -/
def wOrderState : EngineState :=
  { initState false with
      openOrders := [(100, "a")]
      orderMeta := [("a", ⟨100, Side.buy, 0⟩)] }

/-- A `place_limit` command for a buy at 2000, far above the tight
band's `max_buy = 110`. -/
def wBuyHigh : CmdObj :=
  { op := some "place_limit"
    price := some 2000
    side := some Side.buy
    contracts := some 1
    reduceOnly := none }

/-- A `cancel_by_price` command whose JSON object has no `price` key. -/
def wNoPrice : CmdObj :=
  { op := some "cancel_by_price"
    price := none
    side := none
    contracts := none
    reduceOnly := none }

/-- A `cancel_all` command. -/
def wCancelAll : CmdObj :=
  { op := some "cancel_all"
    price := none
    side := none
    contracts := none
    reduceOnly := none }

/-- A `place_limit` buy command with an explicit `reduceOnly: true`. -/
def wBuyReduce : CmdObj :=
  { op := some "place_limit"
    price := some 100
    side := some Side.buy
    contracts := some 1
    reduceOnly := some true }

/-- A tick whose snapshot write raises. -/
def wTickFail : TickIn :=
  { queue := [], fetch := fun _ => none, snapOk := false }

/-- A tick carrying a `cancel_all` command, with a healthy snapshot. -/
def wTickCancel : TickIn :=
  { queue := [Line.cmd wCancelAll], fetch := fun _ => none, snapOk := true }

/-! ## Helper lemmas -/

theorem eps_pos : (0 : ℚ) < eps := by norm_num [eps]

theorem findOrder_eq_none_iff (p : ℚ) (l : List (ℚ × String)) :
    findOrder p l = none ↔ ∀ e ∈ l, e.1 ≠ p := by
  induction l with
  | nil => simp [findOrder]
  | cons e rest ih =>
    by_cases h : e.1 = p
    · simp [findOrder, h]
    · simp [findOrder, h, ih]

theorem findOrder_eq_none_iff_notMem (p : ℚ) (l : List (ℚ × String)) :
    findOrder p l = none ↔ p ∉ l.map Prod.fst := by
  rw [findOrder_eq_none_iff, List.mem_map]
  push_neg
  exact Iff.rfl

theorem nodup_append_key {l : List (ℚ × String)} {p : ℚ} (oid : String)
    (h : (l.map Prod.fst).Nodup) (hp : findOrder p l = none) :
    ((l ++ [(p, oid)]).map Prod.fst).Nodup := by
  rw [List.map_append, List.nodup_append]
  refine ⟨h, by simp, ?_⟩
  intro a ha hb
  simp only [List.map_cons, List.map_nil, List.mem_singleton] at hb
  rw [hb] at ha
  exact (findOrder_eq_none_iff_notMem p l).1 hp ha

theorem nodup_removeOrder (p : ℚ) {l : List (ℚ × String)}
    (h : (l.map Prod.fst).Nodup) :
    ((removeOrder p l).map Prod.fst).Nodup := by
  have hs : List.Sublist ((removeOrder p l).map Prod.fst) (l.map Prod.fst) :=
    (List.filter_sublist l).map Prod.fst
  exact hs.nodup h

theorem safe_place_frame (c : Ctx) (s : EngineState) (sd : Side) (p q : ℚ) :
    (safe_place c s sd p q).state.inventory = s.inventory
    ∧ (safe_place c s sd p q).state.realizedPnl = s.realizedPnl
    ∧ (safe_place c s sd p q).state.firstFillIgnore = s.firstFillIgnore
    ∧ (safe_place c s sd p q).state.tradesLog = s.tradesLog := by
  unfold safe_place
  dsimp only
  split_ifs <;>
    first
      | exact ⟨rfl, rfl, rfl, rfl⟩
      | (cases c.venue sd (c.prec p) (c.qprec q) <;> exact ⟨rfl, rfl, rfl, rfl⟩)

theorem safe_place_dup (c : Ctx) (s : EngineState) (sd : Side) (p q : ℚ)
    (h : (findOrder (c.prec p) s.openOrders).isSome) :
    safe_place c s sd p q = ⟨s, none, []⟩ := by
  unfold safe_place
  dsimp only
  rw [if_pos h]

theorem safe_place_openOrders (c : Ctx) (s : EngineState) (sd : Side) (p q : ℚ) :
    (safe_place c s sd p q).state.openOrders = s.openOrders
    ∨ (findOrder (c.prec p) s.openOrders = none
        ∧ ∃ oid, (safe_place c s sd p q).state.openOrders
            = s.openOrders ++ [(c.prec p, oid)]) := by
  unfold safe_place
  dsimp only
  by_cases h1 : (findOrder (c.prec p) s.openOrders).isSome
  · rw [if_pos h1]
    exact Or.inl rfl
  · have hn : findOrder (c.prec p) s.openOrders = none :=
      Option.not_isSome_iff_eq_none.1 h1
    rw [if_neg h1]
    split_ifs
    · exact Or.inl rfl
    · exact Or.inl rfl
    · cases hv : c.venue sd (c.prec p) (c.qprec q) with
      | some oid => exact Or.inr ⟨hn, oid, rfl⟩
      | none => exact Or.inl rfl

theorem safe_place_nodup (c : Ctx) (sd : Side) (p q : ℚ) {s : EngineState}
    (h : PricesNodup s) : PricesNodup (safe_place c s sd p q).state := by
  rcases safe_place_openOrders c s sd p q with heq | ⟨hn, oid, heq⟩
  · unfold PricesNodup
    rw [heq]
    exact h
  · unfold PricesNodup
    rw [heq]
    exact nodup_append_key oid h hn

theorem safe_place_sent (c : Ctx) (s : EngineState) (sd : Side) (p q : ℚ) :
    ∀ r ∈ (safe_place c s sd p q).sent,
      r.side = sd ∧ r.price = c.prec p ∧ r.qty = c.qprec q
        ∧ r.reduceOnly = false ∧ bandOk c r
        ∧ findOrder (c.prec p) s.openOrders = none := by
  unfold safe_place
  dsimp only
  by_cases h1 : (findOrder (c.prec p) s.openOrders).isSome
  · rw [if_pos h1]
    intro r hr
    cases hr
  · have hn : findOrder (c.prec p) s.openOrders = none :=
      Option.not_isSome_iff_eq_none.1 h1
    rw [if_neg h1]
    by_cases h2 : sd = Side.buy ∧ c.maxBuy < c.prec p
    · rw [if_pos h2]
      intro r hr
      cases hr
    · rw [if_neg h2]
      by_cases h3 : sd = Side.sell ∧ c.prec p < c.minSell
      · rw [if_pos h3]
        intro r hr
        cases hr
      · rw [if_neg h3]
        have hb : bandOk c ⟨sd, c.prec p, c.qprec q, false⟩ := by
          constructor
          · intro hbuy
            by_contra hgt
            exact h2 ⟨hbuy, lt_of_not_le hgt⟩
          · intro hsell
            by_contra hlt
            exact h3 ⟨hsell, lt_of_not_le hlt⟩
        cases c.venue sd (c.prec p) (c.qprec q) with
        | some oid =>
          intro r hr
          rw [List.mem_singleton] at hr
          subst hr
          exact ⟨rfl, rfl, rfl, rfl, hb, hn⟩
        | none =>
          intro r hr
          rw [List.mem_singleton] at hr
          subst hr
          exact ⟨rfl, rfl, rfl, rfl, hb, hn⟩

theorem safe_cancel_nodup (c : Ctx) (p : ℚ) {s : EngineState}
    (h : PricesNodup s) : PricesNodup (safe_cancel_by_price c s p).1 := by
  unfold safe_cancel_by_price
  dsimp only
  cases findOrder (c.prec p) s.openOrders with
  | none => exact h
  | some oid => exact nodup_removeOrder (c.prec p) h

theorem safe_cancel_flag (c : Ctx) (p : ℚ) (s : EngineState) :
    (safe_cancel_by_price c s p).1.firstFillIgnore = s.firstFillIgnore := by
  unfold safe_cancel_by_price
  dsimp only
  cases findOrder (c.prec p) s.openOrders <;> rfl

theorem cancel_all_nodup (s : EngineState) : PricesNodup (cancel_all s) := by
  simp [PricesNodup, cancel_all]

theorem on_fill_openOrders (c : Ctx) (s : EngineState) (sd : Side) (p q : ℚ) :
    (on_fill c s sd p q).openOrders = s.openOrders
    ∧ (on_fill c s sd p q).orderMeta = s.orderMeta
    ∧ (on_fill c s sd p q).firstFillIgnore = s.firstFillIgnore := by
  cases sd <;> exact ⟨rfl, rfl, rfl⟩

theorem replenish_nodup (c : Ctx) (sd : Side) (p : ℚ) {s : EngineState}
    (h : PricesNodup s) : PricesNodup (replenish c s sd p).1 := by
  unfold replenish
  split_ifs with h0
  · exact h
  · cases sd <;> dsimp only
    · cases neighbor_above c.levels p with
      | some up =>
        dsimp only
        split_ifs with hg
        · exact safe_place_nodup c Side.sell up (c.gridQty up) h
        · exact h
      | none => exact h
    · cases neighbor_below c.levels p with
      | some dn =>
        dsimp only
        split_ifs with hg
        · exact safe_place_nodup c Side.buy dn (c.gridQty dn) h
        · exact h
      | none => exact h

theorem replenish_flag (c : Ctx) (sd : Side) (p : ℚ) (s : EngineState) :
    (replenish c s sd p).1.firstFillIgnore = s.firstFillIgnore := by
  unfold replenish
  split_ifs with h0
  · rfl
  · cases sd <;> dsimp only
    · cases neighbor_above c.levels p with
      | some up =>
        dsimp only
        split_ifs with hg
        · exact (safe_place_frame c s Side.sell up (c.gridQty up)).2.2.1
        · rfl
      | none => rfl
    · cases neighbor_below c.levels p with
      | some dn =>
        dsimp only
        split_ifs with hg
        · exact (safe_place_frame c s Side.buy dn (c.gridQty dn)).2.2.1
        · rfl
      | none => rfl

theorem handle_post_close_nodup (c : Ctx) (sd : Side) (p : ℚ) {s : EngineState}
    (h : PricesNodup s) : PricesNodup (handle_post_close c s sd p).1 := by
  unfold handle_post_close
  split_ifs with hf
  · exact h
  · exact replenish_nodup c sd p h

theorem handle_post_close_flag (c : Ctx) (sd : Side) (p : ℚ) (s : EngineState) :
    (handle_post_close c s sd p).1.firstFillIgnore = false := by
  unfold handle_post_close
  split_ifs with hf
  · rfl
  · rw [replenish_flag]
    simpa using hf

theorem processCmd_nodup (c : Ctx) (co : CmdObj) {s : EngineState}
    (h : PricesNodup s) :
    ∀ out, processCmd c s co = Except.ok out → PricesNodup out.1 := by
  intro out hout
  unfold processCmd at hout
  split_ifs at hout with h1 h2 h3 h4 h5
  · injection hout with h'
    rw [← h']
    exact cancel_all_nodup s
  · cases hp : co.price with
    | none =>
      rw [hp] at hout
      exact Except.noConfusion hout
    | some p0 =>
      rw [hp] at hout
      injection hout with h'
      rw [← h']
      exact safe_cancel_nodup c (c.prec p0) h
  · cases hsd : co.side with
    | none =>
      rw [hsd] at hout
      exact Except.noConfusion hout
    | some sd =>
      cases hp : co.price with
      | none =>
        rw [hsd, hp] at hout
        exact Except.noConfusion hout
      | some p0 =>
        cases hc : co.contracts with
        | none =>
          rw [hsd, hp, hc] at hout
          exact Except.noConfusion hout
        | some cts =>
          rw [hsd, hp, hc] at hout
          dsimp only at hout
          by_cases hdup : (findOrder (c.prec p0) s.openOrders).isSome
          · rw [if_pos hdup] at hout
            injection hout with h'
            rw [← h']
            exact h
          · have hn : findOrder (c.prec p0) s.openOrders = none :=
              Option.not_isSome_iff_eq_none.1 hdup
            rw [if_neg hdup] at hout
            cases hv : c.venue sd (c.prec p0) cts with
            | some oid =>
              rw [hv] at hout
              injection hout with h'
              rw [← h']
              exact nodup_append_key oid h hn
            | none =>
              rw [hv] at hout
              injection hout with h'
              rw [← h']
              exact h
  · cases hp : co.price with
    | none =>
      rw [hp] at hout
      exact Except.noConfusion hout
    | some p0 =>
      rw [hp] at hout
      injection hout with h'
      rw [← h']
      exact safe_cancel_nodup c (c.prec p0) h
  · cases hp : co.price with
    | none =>
      rw [hp] at hout
      exact Except.noConfusion hout
    | some p0 =>
      rw [hp] at hout
      dsimp only at hout
      split_ifs at hout with hdup hq hside
      · injection hout with h'
        rw [← h']
        exact h
      · injection hout with h'
        rw [← h']
        exact h
      · injection hout with h'
        rw [← h']
        exact safe_place_nodup c Side.buy (c.prec p0) (c.gridQty (c.prec p0)) h
      · injection hout with h'
        rw [← h']
        exact safe_place_nodup c Side.sell (c.prec p0) (c.gridQty (c.prec p0)) h
  · injection hout with h'
    rw [← h']
    exact h

theorem processCmd_flag (c : Ctx) (co : CmdObj) (s : EngineState) :
    ∀ out, processCmd c s co = Except.ok out →
      out.1.firstFillIgnore = s.firstFillIgnore := by
  intro out hout
  unfold processCmd at hout
  split_ifs at hout with h1 h2 h3 h4 h5
  · injection hout with h'
    rw [← h']
    rfl
  · cases hp : co.price with
    | none =>
      rw [hp] at hout
      exact Except.noConfusion hout
    | some p0 =>
      rw [hp] at hout
      injection hout with h'
      rw [← h']
      exact safe_cancel_flag c (c.prec p0) s
  · cases hsd : co.side with
    | none =>
      rw [hsd] at hout
      exact Except.noConfusion hout
    | some sd =>
      cases hp : co.price with
      | none =>
        rw [hsd, hp] at hout
        exact Except.noConfusion hout
      | some p0 =>
        cases hc : co.contracts with
        | none =>
          rw [hsd, hp, hc] at hout
          exact Except.noConfusion hout
        | some cts =>
          rw [hsd, hp, hc] at hout
          dsimp only at hout
          split_ifs at hout with hdup
          · injection hout with h'
            rw [← h']
          · cases hv : c.venue sd (c.prec p0) cts with
            | some oid =>
              rw [hv] at hout
              injection hout with h'
              rw [← h']
            | none =>
              rw [hv] at hout
              injection hout with h'
              rw [← h']
  · cases hp : co.price with
    | none =>
      rw [hp] at hout
      exact Except.noConfusion hout
    | some p0 =>
      rw [hp] at hout
      injection hout with h'
      rw [← h']
      exact safe_cancel_flag c (c.prec p0) s
  · cases hp : co.price with
    | none =>
      rw [hp] at hout
      exact Except.noConfusion hout
    | some p0 =>
      rw [hp] at hout
      dsimp only at hout
      split_ifs at hout with hdup hq hside
      · injection hout with h'
        rw [← h']
      · injection hout with h'
        rw [← h']
      · injection hout with h'
        rw [← h']
        exact (safe_place_frame c s Side.buy (c.prec p0) (c.gridQty (c.prec p0))).2.2.1
      · injection hout with h'
        rw [← h']
        exact (safe_place_frame c s Side.sell (c.prec p0) (c.gridQty (c.prec p0))).2.2.1
  · injection hout with h'
    rw [← h']

theorem processLines_nodup (c : Ctx) :
    ∀ (lines : List Line) {s : EngineState},
      PricesNodup s → PricesNodup (processLines c s lines).1 := by
  intro lines
  induction lines with
  | nil =>
    intro s h
    exact h
  | cons ln rest ih =>
    intro s h
    cases ln with
    | badJson => exact ih h
    | cmd co =>
      cases hpc : processCmd c s co with
      | ok out =>
        rcases out with ⟨s', reqs⟩
        simp only [processLines, hpc]
        exact ih (processCmd_nodup c co h (s', reqs) hpc)
      | error e =>
        simp only [processLines, hpc]
        exact h

theorem processLines_flag (c : Ctx) :
    ∀ (lines : List Line) (s : EngineState),
      (processLines c s lines).1.firstFillIgnore = s.firstFillIgnore := by
  intro lines
  induction lines with
  | nil =>
    intro s
    rfl
  | cons ln rest ih =>
    intro s
    cases ln with
    | badJson => exact ih s
    | cmd co =>
      cases hpc : processCmd c s co with
      | ok out =>
        rcases out with ⟨s', reqs⟩
        simp only [processLines, hpc]
        rw [ih s']
        exact processCmd_flag c co s (s', reqs) hpc
      | error e =>
        simp only [processLines, hpc]

theorem pollFillPart_frame (c : Ctx) (oid : String) (m : OrderMeta)
    (filled : ℚ) (s : EngineState) :
    (pollFillPart c oid m filled s).openOrders = s.openOrders
    ∧ (pollFillPart c oid m filled s).firstFillIgnore = s.firstFillIgnore := by
  unfold pollFillPart
  dsimp only
  split_ifs with hinc
  · exact ⟨(on_fill_openOrders c s m.side m.price _).1,
      (on_fill_openOrders c s m.side m.price _).2.2⟩
  · exact ⟨rfl, rfl⟩

theorem pollClosePart_nodup (c : Ctx) (oid : String) (m : OrderMeta)
    {s : EngineState} (h : PricesNodup s) :
    PricesNodup (pollClosePart c oid m s).1 := by
  unfold pollClosePart
  dsimp only
  exact handle_post_close_nodup c m.side m.price (nodup_removeOrder m.price h)

theorem pollStep_nodup (c : Ctx) (fetch : String → Option (ℚ × Bool)) :
    ∀ (entries : List (String × OrderMeta)) {s : EngineState},
      PricesNodup s → PricesNodup (pollStep c fetch entries s).1 := by
  intro entries
  induction entries with
  | nil =>
    intro s h
    exact h
  | cons e rest ih =>
    intro s h
    rcases e with ⟨oid, m⟩
    cases hf : fetch oid with
    | none =>
      simp only [pollStep, hf]
      exact ih h
    | some fc =>
      rcases fc with ⟨filled, closed⟩
      have h1 : PricesNodup (pollFillPart c oid m filled s) := by
        unfold PricesNodup
        rw [(pollFillPart_frame c oid m filled s).1]
        exact h
      cases closed with
      | true =>
        simp only [pollStep, hf, if_pos]
        exact ih (pollClosePart_nodup c oid m h1)
      | false =>
        simp only [pollStep, hf]
        rw [if_neg Bool.false_ne_true]
        exact ih h1

theorem pollStep_flag (c : Ctx) (fetch : String → Option (ℚ × Bool)) :
    ∀ (entries : List (String × OrderMeta)) {s : EngineState},
      s.firstFillIgnore = false →
      (pollStep c fetch entries s).1.firstFillIgnore = false := by
  intro entries
  induction entries with
  | nil =>
    intro s h
    exact h
  | cons e rest ih =>
    intro s h
    rcases e with ⟨oid, m⟩
    cases hf : fetch oid with
    | none =>
      simp only [pollStep, hf]
      exact ih h
    | some fc =>
      rcases fc with ⟨filled, closed⟩
      cases closed with
      | true =>
        simp only [pollStep, hf, if_pos]
        refine ih ?_
        unfold pollClosePart
        dsimp only
        exact handle_post_close_flag c m.side m.price _
      | false =>
        simp only [pollStep, hf]
        rw [if_neg Bool.false_ne_true]
        refine ih ?_
        rw [(pollFillPart_frame c oid m filled s).2]
        exact h

theorem initGridStep_nodup (c : Ctx) :
    ∀ (lvls : List ℚ) {s : EngineState},
      PricesNodup s → PricesNodup (initGridStep c lvls s).1 := by
  intro lvls
  induction lvls with
  | nil =>
    intro s h
    exact h
  | cons p rest ih =>
    intro s h
    unfold initGridStep
    dsimp only
    split_ifs with hq hsell hres hbuy
    · exact ih h
    · exact ih (safe_place_nodup c Side.sell p (c.gridQty p) h)
    · exact ih (safe_place_nodup c Side.sell p (c.gridQty p) h)
    · exact ih (safe_place_nodup c Side.buy p (c.gridQty p) h)
    · exact ih h

theorem initGridStep_flag (c : Ctx) :
    ∀ (lvls : List ℚ) (s : EngineState),
      (initGridStep c lvls s).1.firstFillIgnore = s.firstFillIgnore := by
  intro lvls
  induction lvls with
  | nil =>
    intro s
    rfl
  | cons p rest ih =>
    intro s
    unfold initGridStep
    dsimp only
    split_ifs with hq hsell hres hbuy
    · exact ih s
    · rw [ih _]
      exact (safe_place_frame c s Side.sell p (c.gridQty p)).2.2.1
    · rw [ih _]
      exact (safe_place_frame c s Side.sell p (c.gridQty p)).2.2.1
    · rw [ih _]
      exact (safe_place_frame c s Side.buy p (c.gridQty p)).2.2.1
    · exact ih s

theorem tick_nodup (c : Ctx) (t : TickIn) {s : EngineState}
    (h : PricesNodup s) : PricesNodup (tick c t s).1 := by
  unfold tick process_commands
  dsimp only
  exact pollStep_nodup c t.fetch _ (processLines_nodup c t.queue h)

theorem tick_flag (c : Ctx) (t : TickIn) {s : EngineState}
    (h : s.firstFillIgnore = false) :
    (tick c t s).1.firstFillIgnore = false := by
  unfold tick process_commands
  dsimp only
  refine pollStep_flag c t.fetch _ ?_
  rw [processLines_flag]
  exact h

theorem applyOp_nodup (c : Ctx) (op : Op) {s : EngineState}
    (h : PricesNodup s) : PricesNodup (applyOp c s op) := by
  cases op with
  | placeOp sd p q => exact safe_place_nodup c sd p q h
  | cancelPriceOp p => exact safe_cancel_nodup c p h
  | cancelAllOp => exact cancel_all_nodup s
  | fillOp sd p q =>
    show (List.map Prod.fst (on_fill c s sd p q).openOrders).Nodup
    rw [(on_fill_openOrders c s sd p q).1]
    exact h
  | postCloseOp sd p => exact handle_post_close_nodup c sd p h
  | lineOp ln => exact processLines_nodup c [ln] h
  | initGridOp => exact initGridStep_nodup c c.levels h
  | tickOp t => exact tick_nodup c t h

theorem applyOp_flag (c : Ctx) (op : Op) {s : EngineState}
    (h : s.firstFillIgnore = false) :
    (applyOp c s op).firstFillIgnore = false := by
  cases op with
  | placeOp sd p q =>
    show (safe_place c s sd p q).state.firstFillIgnore = false
    rw [(safe_place_frame c s sd p q).2.2.1]
    exact h
  | cancelPriceOp p =>
    show (safe_cancel_by_price c s p).1.firstFillIgnore = false
    rw [safe_cancel_flag]
    exact h
  | cancelAllOp => exact h
  | fillOp sd p q =>
    show (on_fill c s sd p q).firstFillIgnore = false
    rw [(on_fill_openOrders c s sd p q).2.2]
    exact h
  | postCloseOp sd p => exact handle_post_close_flag c sd p s
  | lineOp ln =>
    show (processLines c s [ln]).1.firstFillIgnore = false
    rw [processLines_flag]
    exact h
  | initGridOp =>
    show (initGridStep c c.levels s).1.firstFillIgnore = false
    rw [initGridStep_flag]
    exact h
  | tickOp t => exact tick_flag c t h

theorem runOps_nodup (c : Ctx) :
    ∀ (ops : List Op) {s : EngineState},
      PricesNodup s → PricesNodup (runOps c s ops) := by
  intro ops
  induction ops with
  | nil =>
    intro s h
    exact h
  | cons op rest ih =>
    intro s h
    exact ih (applyOp_nodup c op h)

theorem totalContracts_nonneg {lots : List Lot}
    (h : ∀ l ∈ lots, 0 ≤ l.contracts) : 0 ≤ totalContracts lots := by
  unfold totalContracts
  apply List.sum_nonneg
  intro x hx
  rcases List.mem_map.1 hx with ⟨l, hl, rfl⟩
  exact h l hl

theorem sellConsume_pos (c : Ctx) (sp : ℚ) :
    ∀ (toSell : ℚ) (lots : List Lot), (∀ l ∈ lots, 0 < l.contracts) →
      ∀ l ∈ (sellConsume c sp toSell lots).1, 0 < l.contracts := by
  intro toSell lots
  induction lots generalizing toSell with
  | nil =>
    intro _ l hl
    cases hl
  | cons lot rest ih =>
    intro h l hl
    unfold sellConsume at hl
    dsimp only at hl
    split_ifs at hl with hg hrem
    · exact ih _ (fun x hx => h x (List.mem_cons_of_mem _ hx)) l hl
    · rcases List.mem_cons.1 hl with rfl | hl'
      · have hlt : eps < lot.contracts - min toSell lot.contracts :=
          lt_of_not_le hrem
        have := eps_pos
        show (0 : ℚ) < lot.contracts - min toSell lot.contracts
        linarith
      · exact h l (List.mem_cons_of_mem _ hl')
    · exact h l hl

theorem sellConsume_fifo (c : Ctx) (sp : ℚ) :
    ∀ (toSell : ℚ) (lots : List Lot),
      FifoTrunc lots (sellConsume c sp toSell lots).1 := by
  intro toSell lots
  induction lots generalizing toSell with
  | nil => exact ⟨0, Or.inl rfl⟩
  | cons lot rest ih =>
    unfold sellConsume
    dsimp only
    split_ifs with hg hrem
    · rcases ih (toSell - min toSell lot.contracts) with ⟨k, hk⟩
      exact ⟨k + 1, by rw [List.drop_succ_cons]; exact hk⟩
    · refine ⟨0, Or.inr ⟨lot, rest,
        lot.contracts - min toSell lot.contracts, rfl, ?_, ?_, rfl⟩⟩
      · have := eps_pos
        have := lt_of_not_le hrem
        linarith
      · by_cases hts : toSell ≤ lot.contracts
        · have hmin : min toSell lot.contracts = toSell := min_eq_left hts
          rw [hmin]
          have hg' : eps < toSell := hg
          have := eps_pos
          linarith
        · have hmin : min toSell lot.contracts = lot.contracts :=
            min_eq_right (le_of_not_le hts)
          rw [hmin] at hrem
          rw [sub_self] at hrem
          exact absurd (le_of_lt eps_pos) hrem
    · exact ⟨0, Or.inl rfl⟩

theorem sellConsume_drain (c : Ctx) (sp : ℚ) :
    ∀ (toSell : ℚ) (lots : List Lot), (∀ l ∈ lots, 0 ≤ l.contracts) →
      totalContracts lots + eps < toSell →
      (sellConsume c sp toSell lots).1 = [] := by
  intro toSell lots
  induction lots generalizing toSell with
  | nil =>
    intro _ _
    rfl
  | cons lot rest ih =>
    intro h hlt
    have h0 : 0 ≤ lot.contracts := h lot (List.mem_cons_self _ _)
    have hrest : 0 ≤ totalContracts rest :=
      totalContracts_nonneg (fun x hx => h x (List.mem_cons_of_mem _ hx))
    have htot : totalContracts (lot :: rest)
        = lot.contracts + totalContracts rest := by
      simp [totalContracts]
    rw [htot] at hlt
    have hepos := eps_pos
    have hg : eps < toSell := by linarith
    have hmin : min toSell lot.contracts = lot.contracts :=
      min_eq_right (by linarith)
    unfold sellConsume
    dsimp only
    rw [if_pos hg, hmin, sub_self, if_pos (le_of_lt eps_pos)]
    dsimp only
    exact ih (toSell - lot.contracts)
      (fun x hx => h x (List.mem_cons_of_mem _ hx)) (by linarith)

theorem on_fill_buy_inventory (c : Ctx) (s : EngineState) (p q : ℚ) :
    (on_fill c s Side.buy p q).inventory = s.inventory ++ [⟨q, p⟩] := rfl

theorem on_fill_sell_inventory (c : Ctx) (s : EngineState) (p q : ℚ) :
    (on_fill c s Side.sell p q).inventory
      = (sellConsume c p q s.inventory).1 := rfl

theorem on_fill_pos (c : Ctx) {s : EngineState} (sd : Side) (p q : ℚ)
    (hs : ∀ l ∈ s.inventory, 0 < l.contracts) (hq : 0 < q) :
    ∀ l ∈ (on_fill c s sd p q).inventory, 0 < l.contracts := by
  cases sd with
  | buy =>
    intro l hl
    rw [on_fill_buy_inventory] at hl
    rcases List.mem_append.1 hl with h | h
    · exact hs l h
    · rw [List.mem_singleton] at h
      rw [h]
      exact hq
  | sell =>
    intro l hl
    rw [on_fill_sell_inventory] at hl
    exact sellConsume_pos c p q s.inventory hs l hl

theorem applyFills_pos (c : Ctx) :
    ∀ (fills : List (Side × ℚ × ℚ)) {s : EngineState},
      (∀ l ∈ s.inventory, 0 < l.contracts) →
      (∀ f ∈ fills, 0 < f.2.2) →
      ∀ l ∈ (applyFills c s fills).inventory, 0 < l.contracts := by
  intro fills
  induction fills with
  | nil =>
    intro s hs _
    exact hs
  | cons f rest ih =>
    intro s hs hf
    refine ih (on_fill_pos c f.1 f.2.1 f.2.2 hs
      (hf f (List.mem_cons_self _ _))) ?_
    intro g hg
    exact hf g (List.mem_cons_of_mem _ hg)

/-! ## Claims -/

/-- C1: over every sequence of engine operations from the initial state,
no two open-order entries share a (precision-rounded) price;
`safe_place` returns `None` without contacting the venue when the
rounded price already has an open order; and the `place_limit` command
is skipped on a price collision, with no venue call and no state
change. -/
theorem claim_C1 (c : Ctx) (b : Bool) (ops : List Op) :
    PricesNodup (runOps c (initState b) ops)
    ∧ (∀ (s : EngineState) (sd : Side) (p q : ℚ),
        (findOrder (c.prec p) s.openOrders).isSome →
        safe_place c s sd p q = ⟨s, none, []⟩)
    ∧ (∀ (s : EngineState) (co : CmdObj) (sd : Side) (p0 cts : ℚ),
        co.op = some "place_limit" → co.side = some sd →
        co.price = some p0 → co.contracts = some cts →
        (findOrder (c.prec p0) s.openOrders).isSome →
        processCmd c s co = Except.ok (s, [])) := by
  refine ⟨runOps_nodup c ops (by simp [PricesNodup, initState]), ?_, ?_⟩
  · intro s sd p q h
    exact safe_place_dup c s sd p q h
  · intro s co sd p0 cts hop hsd hp hc hdup
    unfold processCmd
    rw [hop, hsd, hp, hc]
    simp only [Option.some.injEq]
    rw [if_neg (by simp), if_neg (by simp), if_pos trivial, if_pos hdup]

/-- Witness for C1 at a concrete operation sequence that attempts a
duplicate placement. -/
theorem claim_C1_witness :
    PricesNodup (runOps wCtx (initState false)
      [Op.placeOp Side.buy 100 1, Op.placeOp Side.buy 100 1,
        Op.postCloseOp Side.buy 100]) :=
  (claim_C1 wCtx false
    [Op.placeOp Side.buy 100 1, Op.placeOp Side.buy 100 1,
      Op.postCloseOp Side.buy 100]).1

/-- C3 as amended: from an empty ledger, a buy of `q` at `p1` fully
closed by a sell of `q` at `p2` realizes exactly
`(p2 - p1) * q * contractSize - fees` with both fee legs
`feeRate * price * notional`, and accruing through two partial sells of
`q / 2` realizes exactly the same total — provided `q` exceeds twice
the `1e-12` dust threshold, so that each `q / 2` partial fill clears
the ledger loop guard `to_sell > 1e-12`.  At or below that bound the
partial sells accrue nothing while the single sell still accrues the
formula (see the counterexample).  Python float expressions are
modelled exactly over `ℚ`. -/
theorem claim_C3 (c : Ctx) (p1 p2 q : ℚ) (hq : 2 * eps < q) :
    (on_fill c (on_fill c (initState false) Side.buy p1 q)
        Side.sell p2 q).realizedPnl
      = (p2 - p1) * (q * c.contractSize)
        - (c.feeRate * p2 * (q * c.contractSize)
          + c.feeRate * p1 * (q * c.contractSize))
    ∧ (on_fill c (on_fill c (on_fill c (initState false) Side.buy p1 q)
          Side.sell p2 (q / 2)) Side.sell p2 (q / 2)).realizedPnl
      = (on_fill c (on_fill c (initState false) Side.buy p1 q)
          Side.sell p2 q).realizedPnl := by
  have hepos := eps_pos
  have h1 : eps < q := by linarith
  have h2 : eps < q / 2 := by linarith
  have hc1 : sellConsume c p2 q [⟨q, p1⟩] =
      ([], (p2 - p1) * (q * c.contractSize)
        - ((c.feeRate * p2 * (q * c.contractSize)
          + c.feeRate * p1 * (q * c.contractSize)) : ℚ)) := by
    unfold sellConsume
    rw [if_pos h1]
    dsimp only
    rw [min_self, sub_self, if_pos (le_of_lt eps_pos)]
    simp only [sellConsume, add_zero]
  have hc2 : sellConsume c p2 (q / 2) [⟨q, p1⟩] =
      ([⟨q / 2, p1⟩], (p2 - p1) * (q / 2 * c.contractSize)
        - ((c.feeRate * p2 * (q / 2 * c.contractSize)
          + c.feeRate * p1 * (q / 2 * c.contractSize)) : ℚ)) := by
    unfold sellConsume
    rw [if_pos h2]
    dsimp only
    rw [min_eq_left (by linarith : q / 2 ≤ q)]
    rw [if_neg (by intro hle; linarith)]
    have hhalf : q - q / 2 = q / 2 := by ring
    rw [hhalf]
  have hc3 : sellConsume c p2 (q / 2) [⟨q / 2, p1⟩] =
      ([], (p2 - p1) * (q / 2 * c.contractSize)
        - ((c.feeRate * p2 * (q / 2 * c.contractSize)
          + c.feeRate * p1 * (q / 2 * c.contractSize)) : ℚ)) := by
    unfold sellConsume
    rw [if_pos h2]
    dsimp only
    rw [min_self, sub_self, if_pos (le_of_lt eps_pos)]
    simp only [sellConsume, add_zero]
  constructor
  · show (0 : ℚ) + (sellConsume c p2 q [⟨q, p1⟩]).2 = _
    rw [hc1]
    ring
  · show ((0 : ℚ) + (sellConsume c p2 (q / 2) [⟨q, p1⟩]).2)
          + (sellConsume c p2 (q / 2)
              (sellConsume c p2 (q / 2) [⟨q, p1⟩]).1).2
        = (0 : ℚ) + (sellConsume c p2 q [⟨q, p1⟩]).2
    rw [hc1, hc2]
    dsimp only
    rw [hc3]
    dsimp only
    ring

/-- Witness for C3 at `p1 = 100`, `p2 = 105`, `q = 1`. -/
theorem claim_C3_witness :
    (on_fill wCtx (on_fill wCtx (initState false) Side.buy 100 1)
        Side.sell 105 1).realizedPnl
      = (105 - 100) * (1 * wCtx.contractSize)
        - (wCtx.feeRate * 105 * (1 * wCtx.contractSize)
          + wCtx.feeRate * 100 * (1 * wCtx.contractSize))
    ∧ (on_fill wCtx (on_fill wCtx (on_fill wCtx (initState false)
          Side.buy 100 1) Side.sell 105 (1 / 2))
          Side.sell 105 (1 / 2)).realizedPnl
      = (on_fill wCtx (on_fill wCtx (initState false) Side.buy 100 1)
          Side.sell 105 1).realizedPnl :=
  claim_C3 wCtx 100 105 1 (by norm_num [eps])

/-- Counterexample for C3 as frozen, at `q = 2e-12`: the single sell of
`q` clears the loop guard and realizes the full formula (a nonzero
amount here), but each partial sell of `q / 2 = 1e-12` fails the strict
guard `to_sell > 1e-12`, so the two-partial-sells path realizes 0 —
the two accrual paths differ. -/
theorem claim_C3_cex :
    (0 : ℚ) < 2 / 10 ^ 12
    ∧ (on_fill wCtx (on_fill wCtx (on_fill wCtx (initState false)
          Side.buy 100 (2 / 10 ^ 12)) Side.sell 105 (1 / 10 ^ 12))
          Side.sell 105 (1 / 10 ^ 12)).realizedPnl = 0
    ∧ (on_fill wCtx (on_fill wCtx (initState false)
          Side.buy 100 (2 / 10 ^ 12))
          Side.sell 105 (2 / 10 ^ 12)).realizedPnl ≠ 0 := by
  refine ⟨by norm_num, ?_, ?_⟩
  · show (0 : ℚ) + (sellConsume wCtx 105 (1 / 10 ^ 12)
          [⟨2 / 10 ^ 12, 100⟩]).2
        + (sellConsume wCtx 105 (1 / 10 ^ 12)
            (sellConsume wCtx 105 (1 / 10 ^ 12) [⟨2 / 10 ^ 12, 100⟩]).1).2
      = 0
    have hguard : ¬(eps < (1 : ℚ) / 10 ^ 12) := by norm_num [eps]
    have h1 : sellConsume wCtx 105 (1 / 10 ^ 12) [⟨2 / 10 ^ 12, 100⟩]
        = ([⟨2 / 10 ^ 12, 100⟩], 0) := by
      unfold sellConsume
      rw [if_neg hguard]
    rw [h1]
    dsimp only
    rw [h1]
    norm_num
  · show (0 : ℚ) + (sellConsume wCtx 105 (2 / 10 ^ 12)
          [⟨2 / 10 ^ 12, 100⟩]).2 ≠ 0
    have hguard : eps < (2 : ℚ) / 10 ^ 12 := by norm_num [eps]
    have h1 : sellConsume wCtx 105 (2 / 10 ^ 12) [⟨2 / 10 ^ 12, 100⟩]
        = ([], (105 - 100) * (2 / 10 ^ 12 * wCtx.contractSize)
            - ((wCtx.feeRate * 105 * (2 / 10 ^ 12 * wCtx.contractSize)
              + wCtx.feeRate * 100 * (2 / 10 ^ 12 * wCtx.contractSize))
                : ℚ)) := by
      unfold sellConsume
      rw [if_pos hguard]
      dsimp only
      rw [min_self, sub_self, if_pos (le_of_lt eps_pos)]
      simp only [sellConsume, add_zero]
    rw [h1]
    show (0 : ℚ) + ((105 - 100) * (2 / 10 ^ 12 * wCtx.contractSize)
        - (wCtx.feeRate * 105 * (2 / 10 ^ 12 * wCtx.contractSize)
          + wCtx.feeRate * 100 * (2 / 10 ^ 12 * wCtx.contractSize))) ≠ 0
    norm_num [wCtx]

/-- C4 as amended: over every sequence of positive-size fills the
ledger keeps every retained lot strictly positive and the inventory
total non-negative; a sell consumes lots oldest-first (`FifoTrunc`) and
a buy appends at the tail; and a sell whose contracts exceed the total
inventory by more than the `1e-12` dust threshold drains the queue to
empty, ignoring the unmatched remainder (a sub-threshold oversell can
leave a dust queue behind, see the counterexample). -/
theorem claim_C4_amended (c : Ctx) (fills : List (Side × ℚ × ℚ))
    (s : EngineState)
    (hs : ∀ l ∈ s.inventory, 0 < l.contracts)
    (hf : ∀ f ∈ fills, 0 < f.2.2) :
    (∀ l ∈ (applyFills c s fills).inventory, 0 < l.contracts)
    ∧ 0 ≤ totalContracts (applyFills c s fills).inventory
    ∧ (∀ (p q : ℚ) (t : EngineState),
        FifoTrunc t.inventory (on_fill c t Side.sell p q).inventory)
    ∧ (∀ (p q : ℚ) (t : EngineState),
        (on_fill c t Side.buy p q).inventory = t.inventory ++ [⟨q, p⟩])
    ∧ (∀ (p q : ℚ) (t : EngineState),
        (∀ l ∈ t.inventory, 0 ≤ l.contracts) →
        totalContracts t.inventory + eps < q →
        (on_fill c t Side.sell p q).inventory = []) := by
  have hpos := applyFills_pos c fills hs hf
  refine ⟨hpos, totalContracts_nonneg (fun l hl => le_of_lt (hpos l hl)),
    ?_, ?_, ?_⟩
  · intro p q t
    rw [on_fill_sell_inventory]
    exact sellConsume_fifo c p q t.inventory
  · intro p q t
    exact on_fill_buy_inventory c t p q
  · intro p q t ht hlt
    rw [on_fill_sell_inventory]
    exact sellConsume_drain c p q t.inventory ht hlt

/-- Witness for C4 at a concrete fill sequence: buy 2 at 100, sell 1 at
105, then a drain check for a sell far above the inventory. -/
theorem claim_C4_witness :
    (∀ l ∈ (applyFills wCtx (initState false)
        [(Side.buy, 100, 2), (Side.sell, 105, 1)]).inventory,
      0 < l.contracts)
    ∧ 0 ≤ totalContracts (applyFills wCtx (initState false)
        [(Side.buy, 100, 2), (Side.sell, 105, 1)]).inventory :=
  And.intro
    (claim_C4_amended wCtx [(Side.buy, 100, 2), (Side.sell, 105, 1)]
      (initState false) (by decide) (by decide)).1
    (claim_C4_amended wCtx [(Side.buy, 100, 2), (Side.sell, 105, 1)]
      (initState false) (by decide) (by decide)).2.1

/-- Counterexample for C4 as frozen: a sell of `2e-13` contracts
exceeds the total inventory (`1e-13`), yet the queue is NOT drained to
empty — both amounts sit below the `1e-12` loop threshold, so the
ledger loop never runs and the dust lot stays. -/
theorem claim_C4_cex :
    totalContracts (on_fill wCtx (initState false)
        Side.buy 100 (1 / 10 ^ 13)).inventory < 2 / 10 ^ 13
    ∧ (on_fill wCtx (on_fill wCtx (initState false)
        Side.buy 100 (1 / 10 ^ 13)) Side.sell 100 (2 / 10 ^ 13)).inventory
      ≠ [] := by
  constructor
  · show totalContracts [⟨(1 : ℚ) / 10 ^ 13, 100⟩] < 2 / 10 ^ 13
    norm_num [totalContracts]
  · show (sellConsume wCtx 100 (2 / 10 ^ 13) [⟨(1 : ℚ) / 10 ^ 13, 100⟩]).1 ≠ []
    unfold sellConsume
    rw [if_neg (by norm_num [eps])]
    simp

theorem handle_post_close_armed (c : Ctx) (s : EngineState) (sd : Side)
    (p : ℚ) (h : s.firstFillIgnore = true) :
    handle_post_close c s sd p = ({ s with firstFillIgnore := false }, []) := by
  unfold handle_post_close
  rw [if_pos h]

theorem handle_post_close_disarmed (c : Ctx) (s : EngineState) (sd : Side)
    (p : ℚ) (h : s.firstFillIgnore = false) :
    handle_post_close c s sd p = replenish c s sd p := by
  unfold handle_post_close
  rw [if_neg (by simp [h])]

theorem ignoredCloses_zero (c : Ctx) :
    ∀ (evs : List (Side × ℚ)) {s : EngineState},
      s.firstFillIgnore = false → ignoredCloses c s evs = 0 := by
  intro evs
  induction evs with
  | nil =>
    intro s _
    rfl
  | cons e rest ih =>
    intro s h
    show (if s.firstFillIgnore then 1 else 0)
        + ignoredCloses c (handle_post_close c s e.1 e.2).1 rest = 0
    rw [h, if_neg Bool.false_ne_true, ih (handle_post_close_flag c e.1 e.2 s)]

/-- C5: over every close-event sequence from the initial state, exactly
the first event is ignored when `init_position` is enabled and none is
ignored when it is disabled; an ignored close changes nothing but the
flag and submits nothing; a close with the flag clear follows the
normal replenishment rule; and no engine operation ever re-arms the
flag once it is clear. -/
theorem claim_C5 (c : Ctx) (b : Bool) (evs : List (Side × ℚ)) :
    ignoredCloses c (initState b) evs = (if b then min 1 evs.length else 0)
    ∧ (∀ (s : EngineState) (sd : Side) (p : ℚ), s.firstFillIgnore = true →
        handle_post_close c s sd p = ({ s with firstFillIgnore := false }, []))
    ∧ (∀ (s : EngineState) (sd : Side) (p : ℚ), s.firstFillIgnore = false →
        handle_post_close c s sd p = replenish c s sd p)
    ∧ (∀ (s : EngineState) (op : Op), s.firstFillIgnore = false →
        (applyOp c s op).firstFillIgnore = false) := by
  refine ⟨?_, handle_post_close_armed c, handle_post_close_disarmed c,
    fun s op h => applyOp_flag c op h⟩
  cases b with
  | false =>
    rw [ignoredCloses_zero c evs (by rfl)]
    rfl
  | true =>
    cases evs with
    | nil => rfl
    | cons e rest =>
      show (if (initState true).firstFillIgnore then 1 else 0)
          + ignoredCloses c
              (handle_post_close c (initState true) e.1 e.2).1 rest
        = if true then min 1 (e :: rest).length else 0
      have hfl : (initState true).firstFillIgnore = true := rfl
      rw [if_pos hfl,
        ignoredCloses_zero c rest (handle_post_close_flag c e.1 e.2 _)]
      simp [Nat.succ_le_succ, Nat.le_add_left]

/-- Witness for C5: two closes with the hedge enabled ignore exactly
one; with it disabled, none. -/
theorem claim_C5_witness :
    ignoredCloses wCtx (initState true) [(Side.buy, 100), (Side.buy, 105)]
      = (if true then min 1 [(Side.buy, 100), (Side.buy, 105)].length else 0)
    ∧ ignoredCloses wCtx (initState false) [(Side.buy, 100), (Side.buy, 105)]
      = (if false then
          min 1 [(Side.buy, 100), (Side.buy, 105)].length else 0) :=
  And.intro
    (claim_C5 wCtx true [(Side.buy, 100), (Side.buy, 105)]).1
    (claim_C5 wCtx false [(Side.buy, 100), (Side.buy, 105)]).1

theorem neighbor_above_mem {levels : List ℚ} {p up : ℚ}
    (h : neighbor_above levels p = some up) : up ∈ levels ∧ p < up := by
  unfold neighbor_above at h
  have hup : up ∈ levels.filter (fun x => decide (p < x)) := by
    cases hf : levels.filter (fun x => decide (p < x)) with
    | nil =>
      rw [hf] at h
      cases h
    | cons a t =>
      rw [hf] at h
      injection h with h2
      rw [← h2]
      exact List.mem_cons_self a t
  have hm := List.mem_filter.1 hup
  exact ⟨hm.1, by simpa using hm.2⟩

theorem neighbor_above_least {levels : List ℚ}
    (hs : levels.Sorted (· < ·)) {p up : ℚ}
    (h : neighbor_above levels p = some up) :
    ∀ l ∈ levels, p < l → up ≤ l := by
  intro l hl hpl
  have hlf : l ∈ levels.filter (fun x => decide (p < x)) :=
    List.mem_filter.2 ⟨hl, by simpa using hpl⟩
  have hsf : (levels.filter (fun x => decide (p < x))).Sorted (· < ·) :=
    hs.filter _
  unfold neighbor_above at h
  cases hf : levels.filter (fun x => decide (p < x)) with
  | nil =>
    rw [hf] at hlf
    cases hlf
  | cons a t =>
    rw [hf] at h hlf hsf
    injection h with h2
    rcases List.mem_cons.1 hlf with rfl | hlt
    · rw [← h2]
    · rw [← h2]
      exact le_of_lt (List.rel_of_sorted_cons hsf l hlt)

theorem mem_of_getLast?_eq {l : List ℚ} {m : ℚ}
    (h : l.getLast? = some m) : m ∈ l := by
  rcases List.mem_getLast?_eq_getLast (show m ∈ l.getLast? from h)
    with ⟨hne, hm⟩
  rw [hm]
  exact List.getLast_mem hne

theorem sorted_le_getLast :
    ∀ {l : List ℚ}, l.Sorted (· < ·) → ∀ {m : ℚ},
      l.getLast? = some m → ∀ x ∈ l, x ≤ m := by
  intro l
  induction l with
  | nil =>
    intro _ m _ x hx
    cases hx
  | cons a t ih =>
    intro hs m h x hx
    cases t with
    | nil =>
      have ha : a = m := by
        simpa using h
      rcases List.mem_singleton.1 hx with rfl
      exact le_of_eq ha
    | cons b t2 =>
      rw [List.getLast?_cons_cons] at h
      rcases List.mem_cons.1 hx with rfl | hx2
      · have hm : m ∈ b :: t2 := mem_of_getLast?_eq h
        exact le_of_lt (List.rel_of_sorted_cons hs m hm)
      · exact ih (List.sorted_cons.1 hs).2 h x hx2

theorem neighbor_below_mem {levels : List ℚ} {p dn : ℚ}
    (h : neighbor_below levels p = some dn) : dn ∈ levels ∧ dn < p := by
  unfold neighbor_below at h
  have hdn : dn ∈ levels.filter (fun x => decide (x < p)) :=
    mem_of_getLast?_eq h
  have hm := List.mem_filter.1 hdn
  exact ⟨hm.1, by simpa using hm.2⟩

theorem neighbor_below_greatest {levels : List ℚ}
    (hs : levels.Sorted (· < ·)) {p dn : ℚ}
    (h : neighbor_below levels p = some dn) :
    ∀ l ∈ levels, l < p → l ≤ dn := by
  intro l hl hlp
  have hlf : l ∈ levels.filter (fun x => decide (x < p)) :=
    List.mem_filter.2 ⟨hl, by simpa using hlp⟩
  exact sorted_le_getLast (hs.filter _) h l hlf

theorem replenish_sent (c : Ctx) (s : EngineState) (sd : Side) (p : ℚ)
    (hprec : ∀ l ∈ c.levels, c.prec l = l) :
    ∀ r ∈ (replenish c s sd p).2,
      r.side = oppSide sd ∧ closeTarget c sd p = some r.price
        ∧ 0 < c.gridQty r.price ∧ findOrder r.price s.openOrders = none := by
  unfold replenish
  split_ifs with h0
  · intro r hr
    cases hr
  · cases sd with
    | buy =>
      dsimp only
      cases hnb : neighbor_above c.levels p with
      | none =>
        intro r hr
        cases hr
      | some up =>
        dsimp only
        split_ifs with hg
        · intro r hr
          obtain ⟨hside, hprice, hqty, hro, hband, hnone⟩ :=
            safe_place_sent c s Side.sell up (c.gridQty up) r hr
          have hpe : c.prec up = up :=
            hprec up (neighbor_above_mem hnb).1
          rw [hpe] at hprice hnone
          refine ⟨hside, ?_, ?_, ?_⟩
          · show neighbor_above c.levels p = some r.price
            rw [hnb, hprice]
          · rw [hprice]
            exact hg.1
          · rw [hprice]
            exact hnone
        · intro r hr
          cases hr
    | sell =>
      dsimp only
      cases hnb : neighbor_below c.levels p with
      | none =>
        intro r hr
        cases hr
      | some dn =>
        dsimp only
        split_ifs with hg
        · intro r hr
          obtain ⟨hside, hprice, hqty, hro, hband, hnone⟩ :=
            safe_place_sent c s Side.buy dn (c.gridQty dn) r hr
          have hpe : c.prec dn = dn :=
            hprec dn (neighbor_below_mem hnb).1
          rw [hpe] at hprice hnone
          refine ⟨hside, ?_, ?_, ?_⟩
          · show neighbor_below c.levels p = some r.price
            rw [hnb, hprice]
          · rw [hprice]
            exact hg.1
          · rw [hprice]
            exact hnone
        · intro r hr
          cases hr

theorem replenish_openOrders (c : Ctx) (s : EngineState) (sd : Side) (p : ℚ)
    (hprec : ∀ l ∈ c.levels, c.prec l = l) :
    (replenish c s sd p).1.openOrders = s.openOrders
    ∨ ∃ up oid, closeTarget c sd p = some up ∧ 0 < c.gridQty up
        ∧ findOrder up s.openOrders = none
        ∧ (replenish c s sd p).1.openOrders = s.openOrders ++ [(up, oid)] := by
  unfold replenish
  split_ifs with h0
  · exact Or.inl rfl
  · cases sd with
    | buy =>
      dsimp only
      cases hnb : neighbor_above c.levels p with
      | none => exact Or.inl rfl
      | some up =>
        dsimp only
        split_ifs with hg
        · have hpe : c.prec up = up :=
            hprec up (neighbor_above_mem hnb).1
          rcases safe_place_openOrders c s Side.sell up (c.gridQty up)
            with heq | ⟨hn, oid, heq⟩
          · exact Or.inl heq
          · refine Or.inr ⟨up, oid, ?_, hg.1, ?_, ?_⟩
            · show neighbor_above c.levels p = some up
              exact hnb
            · rw [← hpe]
              exact hn
            · rw [heq, hpe]
        · exact Or.inl rfl
    | sell =>
      dsimp only
      cases hnb : neighbor_below c.levels p with
      | none => exact Or.inl rfl
      | some dn =>
        dsimp only
        split_ifs with hg
        · have hpe : c.prec dn = dn :=
            hprec dn (neighbor_below_mem hnb).1
          rcases safe_place_openOrders c s Side.buy dn (c.gridQty dn)
            with heq | ⟨hn, oid, heq⟩
          · exact Or.inl heq
          · refine Or.inr ⟨dn, oid, ?_, hg.1, ?_, ?_⟩
            · show neighbor_below c.levels p = some dn
              exact hnb
            · rw [← hpe]
              exact hn
            · rw [heq, hpe]
        · exact Or.inl rfl

theorem replenish_noNeighbor (c : Ctx) (s : EngineState) (sd : Side) (p : ℚ)
    (h : closeTarget c sd p = none) : replenish c s sd p = (s, []) := by
  unfold replenish
  split_ifs with h0
  · rfl
  · cases sd with
    | buy =>
      dsimp only
      rw [show neighbor_above c.levels p = none from h]
    | sell =>
      dsimp only
      rw [show neighbor_below c.levels p = none from h]

theorem replenish_occupied (c : Ctx) (s : EngineState) (sd : Side) (p up : ℚ)
    (h : closeTarget c sd p = some up)
    (hsome : (findOrder up s.openOrders).isSome) :
    replenish c s sd p = (s, []) := by
  have hguard : ¬(0 < c.gridQty up ∧ (findOrder up s.openOrders).isNone) := by
    intro hgg
    have hn := Option.isNone_iff_eq_none.1 hgg.2
    rw [hn] at hsome
    cases hsome
  unfold replenish
  split_ifs with h0
  · rfl
  · cases sd with
    | buy =>
      dsimp only
      rw [show neighbor_above c.levels p = some up from h]
      dsimp only
      rw [if_neg hguard]
    | sell =>
      dsimp only
      rw [show neighbor_below c.levels p = some up from h]
      dsimp only
      rw [if_neg hguard]

/-- C2: with the first-fill-ignore flag clear, handling a closed order
at `p` submits at most one order — the opposite side at the strict
neighbor level (the smallest configured level above a closed buy, the
largest configured level below a closed sell) — and only when that
level has positive configured quantity and no existing open order;
when the neighbor is absent or already has an open order, no order is
submitted or created.  The level list is sorted and precision-stable,
as `__init__` builds it. -/
theorem claim_C2 (c : Ctx) (s : EngineState) (sd : Side) (p : ℚ)
    (hflag : s.firstFillIgnore = false)
    (hsort : c.levels.Sorted (· < ·))
    (hprec : ∀ l ∈ c.levels, c.prec l = l) :
    (∀ r ∈ (handle_post_close c s sd p).2,
      r.side = oppSide sd ∧ closeTarget c sd p = some r.price
        ∧ 0 < c.gridQty r.price ∧ findOrder r.price s.openOrders = none)
    ∧ ((handle_post_close c s sd p).1.openOrders = s.openOrders
        ∨ ∃ up oid, closeTarget c sd p = some up ∧ 0 < c.gridQty up
            ∧ findOrder up s.openOrders = none
            ∧ (handle_post_close c s sd p).1.openOrders
                = s.openOrders ++ [(up, oid)])
    ∧ (∀ up, closeTarget c sd p = some up → ∀ l ∈ c.levels,
        (sd = Side.buy → p < l → up ≤ l)
          ∧ (sd = Side.sell → l < p → l ≤ up))
    ∧ (closeTarget c sd p = none → handle_post_close c s sd p = (s, []))
    ∧ (∀ up, closeTarget c sd p = some up →
        (findOrder up s.openOrders).isSome →
        handle_post_close c s sd p = (s, [])) := by
  rw [handle_post_close_disarmed c s sd p hflag]
  refine ⟨replenish_sent c s sd p hprec, replenish_openOrders c s sd p hprec,
    ?_, replenish_noNeighbor c s sd p, replenish_occupied c s sd p⟩
  intro up hup l hl
  constructor
  · intro hsd hpl
    rw [hsd] at hup
    exact neighbor_above_least hsort hup l hl hpl
  · intro hsd hlp
    rw [hsd] at hup
    exact neighbor_below_greatest hsort hup l hl hlp

/-- Witness for C2: a closed buy at level 100 of the concrete grid
`[100, 105, 110]`. -/
theorem claim_C2_witness :
    (∀ r ∈ (handle_post_close wCtx (initState false) Side.buy 100).2,
      r.side = oppSide Side.buy
        ∧ closeTarget wCtx Side.buy 100 = some r.price
        ∧ 0 < wCtx.gridQty r.price
        ∧ findOrder r.price (initState false).openOrders = none)
    ∧ ((handle_post_close wCtx (initState false) Side.buy 100).1.openOrders
          = (initState false).openOrders
        ∨ ∃ up oid, closeTarget wCtx Side.buy 100 = some up
            ∧ 0 < wCtx.gridQty up
            ∧ findOrder up (initState false).openOrders = none
            ∧ (handle_post_close wCtx (initState false)
                Side.buy 100).1.openOrders
              = (initState false).openOrders ++ [(up, oid)]) :=
  And.intro
    (claim_C2 wCtx (initState false) Side.buy 100 rfl
      (by norm_num [wCtx, List.sorted_cons])
      (by intro l _; rfl)).1
    (claim_C2 wCtx (initState false) Side.buy 100 rfl
      (by norm_num [wCtx, List.sorted_cons])
      (by intro l _; rfl)).2.1

theorem replenish_band (c : Ctx) (s : EngineState) (sd : Side) (p : ℚ) :
    ∀ r ∈ (replenish c s sd p).2, bandOk c r := by
  unfold replenish
  split_ifs with h0
  · intro r hr
    cases hr
  · cases sd with
    | buy =>
      dsimp only
      cases neighbor_above c.levels p with
      | none =>
        intro r hr
        cases hr
      | some up =>
        dsimp only
        split_ifs with hg
        · intro r hr
          exact (safe_place_sent c s Side.sell up
            (c.gridQty up) r hr).2.2.2.2.1
        · intro r hr
          cases hr
    | sell =>
      dsimp only
      cases neighbor_below c.levels p with
      | none =>
        intro r hr
        cases hr
      | some dn =>
        dsimp only
        split_ifs with hg
        · intro r hr
          exact (safe_place_sent c s Side.buy
            dn (c.gridQty dn) r hr).2.2.2.2.1
        · intro r hr
          cases hr

theorem handle_post_close_band (c : Ctx) (s : EngineState) (sd : Side)
    (p : ℚ) : ∀ r ∈ (handle_post_close c s sd p).2, bandOk c r := by
  unfold handle_post_close
  split_ifs with hf
  · intro r hr
    cases hr
  · exact replenish_band c s sd p

theorem initGridStep_band (c : Ctx) :
    ∀ (lvls : List ℚ) (s : EngineState),
      ∀ r ∈ (initGridStep c lvls s).2.1, bandOk c r := by
  intro lvls
  induction lvls with
  | nil =>
    intro s r hr
    cases hr
  | cons p rest ih =>
    intro s
    unfold initGridStep
    dsimp only
    split_ifs with hq hsell hres hbuy
    · exact ih s
    · intro r hr
      rcases List.mem_append.1 hr with h | h
      · exact (safe_place_sent c s Side.sell p (c.gridQty p) r h).2.2.2.2.1
      · exact ih _ r h
    · intro r hr
      rcases List.mem_append.1 hr with h | h
      · exact (safe_place_sent c s Side.sell p (c.gridQty p) r h).2.2.2.2.1
      · exact ih _ r h
    · intro r hr
      rcases List.mem_append.1 hr with h | h
      · exact (safe_place_sent c s Side.buy p (c.gridQty p) r h).2.2.2.2.1
      · exact ih _ r h
    · exact ih s

/-- C6 as amended: every placement that goes through `safe_place` —
grid initialization, replenishment after a close, and the
`restore_level` command — checks the price band before submission, so a
buy above `max_buy` or a sell below `min_sell` is never sent on those
paths; the `place_limit` command, however, checks only for a price
collision and submits the order to the venue with no band check. -/
theorem claim_C6_amended (c : Ctx) :
    (∀ (s : EngineState) (sd : Side) (p q : ℚ),
      ∀ r ∈ (safe_place c s sd p q).sent, bandOk c r)
    ∧ (∀ s : EngineState, ∀ r ∈ (init_full_grid c s).2.1, bandOk c r)
    ∧ (∀ (s : EngineState) (sd : Side) (p : ℚ),
        ∀ r ∈ (handle_post_close c s sd p).2, bandOk c r)
    ∧ (∀ (s : EngineState) (co : CmdObj) (out : EngineState × List Req),
        co.op = some "restore_level" → processCmd c s co = Except.ok out →
        ∀ r ∈ out.2, bandOk c r)
    ∧ (∀ (s : EngineState) (co : CmdObj) (sd : Side) (p0 cts : ℚ),
        co.op = some "place_limit" → co.side = some sd →
        co.price = some p0 → co.contracts = some cts →
        findOrder (c.prec p0) s.openOrders = none →
        ∃ b, reqsOf (processCmd c s co) = [⟨sd, c.prec p0, cts, b⟩]) := by
  refine ⟨?_, ?_, handle_post_close_band c, ?_, ?_⟩
  · intro s sd p q r hr
    exact (safe_place_sent c s sd p q r hr).2.2.2.2.1
  · intro s
    exact initGridStep_band c c.levels s
  · intro s co out hop hpc r hr
    unfold processCmd at hpc
    rw [hop] at hpc
    rw [if_neg (by simp), if_neg (by simp), if_neg (by simp),
      if_neg (by simp), if_pos rfl] at hpc
    cases hp : co.price with
    | none =>
      rw [hp] at hpc
      exact Except.noConfusion hpc
    | some p0 =>
      rw [hp] at hpc
      dsimp only at hpc
      split_ifs at hpc with hdup hq hside
      · injection hpc with h2
        rw [← h2] at hr
        cases hr
      · injection hpc with h2
        rw [← h2] at hr
        cases hr
      · injection hpc with h2
        rw [← h2] at hr
        exact (safe_place_sent c s Side.buy (c.prec p0)
          (c.gridQty (c.prec p0)) r hr).2.2.2.2.1
      · injection hpc with h2
        rw [← h2] at hr
        exact (safe_place_sent c s Side.sell (c.prec p0)
          (c.gridQty (c.prec p0)) r hr).2.2.2.2.1
  · intro s co sd p0 cts hop hsd hp hcts hfree
    unfold processCmd
    rw [hop, hsd, hp, hcts]
    rw [if_neg (by simp), if_neg (by simp), if_pos rfl]
    dsimp only
    rw [if_neg (by rw [hfree]; simp)]
    cases hv : c.venue sd (c.prec p0) cts with
    | some oid =>
      exact ⟨decide (sd = Side.sell)
        && co.reduceOnly.getD (decide (sd = Side.sell)), rfl⟩
    | none =>
      exact ⟨decide (sd = Side.sell)
        && co.reduceOnly.getD (decide (sd = Side.sell)), rfl⟩

/-- Witness for the C6 band guard on the `safe_place` path, at a buy
far above the band. -/
theorem claim_C6_witness :
    ∀ r ∈ (safe_place wCtxTight (initState false) Side.buy 2000 1).sent,
      bandOk wCtxTight r :=
  (claim_C6_amended wCtxTight).1 (initState false) Side.buy 2000 1

/-- Counterexample for C6 as frozen: a `place_limit` buy command at
price 2000 with `max_buy = 110` is submitted to the venue anyway — the
command path performs no band check. -/
theorem claim_C6_cex :
    wCtxTight.maxBuy < 2000
    ∧ reqsOf (processCmd wCtxTight (initState false) wBuyHigh)
        = [⟨Side.buy, 2000, 1, false⟩] := by
  constructor
  · show (110 : ℚ) < 2000
    norm_num
  · rfl

/-- C7 as amended: the queue is truncated after reading, so every line
is processed at most once; a line `json.loads` rejects is skipped
without affecting later lines; a venue error inside `place_limit` is
contained, and processing continues with the remaining lines; but a
command that raises on a field access — e.g. `cancel_by_price` with no
`price` key — escapes to the outer handler and aborts the remaining
lines of the batch. -/
theorem claim_C7_amended (c : Ctx) :
    (∀ (s : EngineState) (queue : List Line),
      (process_commands c s queue).2.2 = [])
    ∧ (∀ (s : EngineState) (rest : List Line),
        processLines c s (Line.badJson :: rest) = processLines c s rest)
    ∧ (∀ (s : EngineState) (co : CmdObj) (sd : Side) (p0 cts : ℚ)
        (rest : List Line),
        co.op = some "place_limit" → co.side = some sd →
        co.price = some p0 → co.contracts = some cts →
        findOrder (c.prec p0) s.openOrders = none →
        c.venue sd (c.prec p0) cts = none →
        (processLines c s (Line.cmd co :: rest)).1
          = (processLines c s rest).1)
    ∧ (∀ (s : EngineState) (co : CmdObj) (rest : List Line),
        co.op = some "cancel_by_price" → co.price = none →
        processLines c s (Line.cmd co :: rest) = (s, [])) := by
  refine ⟨fun _ _ => rfl, fun _ _ => rfl, ?_, ?_⟩
  · intro s co sd p0 cts rest hop hsd hp hcts hfree hv
    have hpc : processCmd c s co = Except.ok
        (s, [⟨sd, c.prec p0, cts, decide (sd = Side.sell)
          && co.reduceOnly.getD (decide (sd = Side.sell))⟩]) := by
      unfold processCmd
      rw [hop, hsd, hp, hcts]
      rw [if_neg (by simp), if_neg (by simp), if_pos rfl]
      dsimp only
      rw [if_neg (by rw [hfree]; simp), hv]
    simp only [processLines, hpc]
  · intro s co rest hop hp
    have hpc : processCmd c s co = Except.error () := by
      unfold processCmd
      rw [hop, hp]
      rw [if_neg (by simp), if_pos rfl]
    simp only [processLines, hpc]

/-- Witness for C7 at a concrete queue with one malformed line. -/
theorem claim_C7_witness :
    (process_commands wCtx wOrderState [Line.badJson]).2.2 = [] :=
  (claim_C7_amended wCtx).1 wOrderState [Line.badJson]

/-- Counterexample for C7 as frozen: a `cancel_by_price` command with
no price key aborts the batch, so the following `cancel_all` never
runs and the open order survives; the same `cancel_all` alone clears
the book. -/
theorem claim_C7_cex :
    (processLines wCtx wOrderState
        [Line.cmd wNoPrice, Line.cmd wCancelAll]).1.openOrders
      = [(100, "a")]
    ∧ (processLines wCtx wOrderState [Line.cmd wCancelAll]).1.openOrders
      = [] := by
  exact ⟨rfl, rfl⟩

/-- C8 as amended: a tick whose snapshot write raises terminates the
main loop — the surrounding handler catches only `KeyboardInterrupt` —
so no later tick runs (the failing tick's command and fill effects have
already been applied); a tick whose snapshot succeeds continues the
loop. -/
theorem claim_C8_amended (c : Ctx) (t : TickIn) (ts : List TickIn)
    (s : EngineState) :
    (t.snapOk = false → runLoop c (t :: ts) s = ((tick c t s).1, 0))
    ∧ (t.snapOk = true → runLoop c (t :: ts) s
        = ((runLoop c ts (tick c t s).1).1,
            (runLoop c ts (tick c t s).1).2 + 1)) := by
  have h2 : (tick c t s).2 = t.snapOk := rfl
  constructor
  · intro h
    simp only [runLoop, h2, h]
    rw [if_neg Bool.false_ne_true]
  · intro h
    simp only [runLoop, h2, h, if_pos]

/-- Witness for C8: one failing-snapshot tick stops the loop with zero
completed ticks. -/
theorem claim_C8_witness :
    runLoop wCtx [wTickFail] wOrderState
      = ((tick wCtx wTickFail wOrderState).1, 0) :=
  (claim_C8_amended wCtx wTickFail [] wOrderState).1 rfl

/-- Counterexample for C8 as frozen: after a tick whose snapshot write
raises, the next tick's `cancel_all` command is never processed — the
open order survives and zero ticks complete — while the same command
tick alone clears the book. -/
theorem claim_C8_cex :
    (runLoop wCtx [wTickFail, wTickCancel] wOrderState).1.openOrders
      = [(100, "a")]
    ∧ (runLoop wCtx [wTickFail, wTickCancel] wOrderState).2 = 0
    ∧ (runLoop wCtx [wTickCancel] wOrderState).1.openOrders = [] := by
  exact ⟨rfl, rfl, rfl⟩

/-- C9: the snapshot write is atomic.  Over the step sequence of
`_atomic_write_json` — temp file created in the target directory,
document written (with a mid-write window), flush, fsync, rename over
the target, cleanup — a reader observing the target after any number of
completed steps sees either the complete old document or the complete
new one, never a partial one; before the rename (in particular when the
write is interrupted mid-temp-file) the old document is intact, and
from the rename on the new document is in place. -/
theorem claim_C9 (α : Type) (oldDoc newDoc : α) (k : ℕ) :
    ((fsRun newDoc ⟨FileContent.complete oldDoc, FileContent.missing⟩
        (atomicWriteSteps.take k)).target = FileContent.complete oldDoc
      ∨ (fsRun newDoc ⟨FileContent.complete oldDoc, FileContent.missing⟩
          (atomicWriteSteps.take k)).target = FileContent.complete newDoc)
    ∧ (k ≤ 5 → (fsRun newDoc
        ⟨FileContent.complete oldDoc, FileContent.missing⟩
        (atomicWriteSteps.take k)).target = FileContent.complete oldDoc)
    ∧ (6 ≤ k → (fsRun newDoc
        ⟨FileContent.complete oldDoc, FileContent.missing⟩
        (atomicWriteSteps.take k)).target
          = FileContent.complete newDoc) := by
  rcases Nat.lt_or_ge k 7 with h7 | h7
  · interval_cases k
    · exact ⟨Or.inl rfl, fun _ => rfl, fun h => absurd h (by omega)⟩
    · exact ⟨Or.inl rfl, fun _ => rfl, fun h => absurd h (by omega)⟩
    · exact ⟨Or.inl rfl, fun _ => rfl, fun h => absurd h (by omega)⟩
    · exact ⟨Or.inl rfl, fun _ => rfl, fun h => absurd h (by omega)⟩
    · exact ⟨Or.inl rfl, fun _ => rfl, fun h => absurd h (by omega)⟩
    · exact ⟨Or.inl rfl, fun _ => rfl, fun h => absurd h (by omega)⟩
    · exact ⟨Or.inr rfl, fun h => absurd h (by omega), fun _ => rfl⟩
  · have hall : atomicWriteSteps.take k = atomicWriteSteps := by
      apply List.take_of_length_le
      simp only [atomicWriteSteps, List.length]
      omega
    rw [hall]
    exact ⟨Or.inr rfl, fun h => absurd h (by omega), fun _ => rfl⟩

/-- Witness for C9 interrupted mid-temp-file (3 completed steps): the
old document is intact. -/
theorem claim_C9_witness :
    (fsRun 1 ⟨FileContent.complete 0, FileContent.missing⟩
      (atomicWriteSteps.take 3)).target = FileContent.complete (0 : ℕ) :=
  (claim_C9 ℕ 0 1 3).2.1 (by omega)

/-- C10 as amended: a `place_limit` command with the `reduceOnly` key
omitted submits with `reduceOnly` set exactly when the side is sell;
an explicit `reduceOnly` value is honored for sell orders; for buy
orders the submitted params never set `reduceOnly`, even when the
command says `reduceOnly: true`. -/
theorem claim_C10_amended (c : Ctx) (s : EngineState) (co : CmdObj)
    (sd : Side) (p0 cts : ℚ)
    (hop : co.op = some "place_limit") (hsd : co.side = some sd)
    (hp : co.price = some p0) (hcts : co.contracts = some cts) :
    ∀ r ∈ reqsOf (processCmd c s co),
      (co.reduceOnly = none → r.reduceOnly = decide (sd = Side.sell))
      ∧ (∀ v, co.reduceOnly = some v →
          r.reduceOnly = (decide (sd = Side.sell) && v)) := by
  unfold processCmd
  rw [hop, hsd, hp, hcts]
  rw [if_neg (by simp), if_neg (by simp), if_pos rfl]
  dsimp only
  split_ifs with hdup
  · intro r hr
    cases hr
  · cases hv : c.venue sd (c.prec p0) cts with
    | some oid =>
      intro r hr
      have hr2 : r = ⟨sd, c.prec p0, cts, decide (sd = Side.sell)
          && co.reduceOnly.getD (decide (sd = Side.sell))⟩ := by
        simpa [reqsOf] using hr
      subst hr2
      constructor
      · intro hro
        show (decide (sd = Side.sell)
            && co.reduceOnly.getD (decide (sd = Side.sell)))
          = decide (sd = Side.sell)
        rw [hro, Option.getD_none]
        exact Bool.and_self _
      · intro v hro
        show (decide (sd = Side.sell)
            && co.reduceOnly.getD (decide (sd = Side.sell)))
          = (decide (sd = Side.sell) && v)
        rw [hro, Option.getD_some]
    | none =>
      intro r hr
      have hr2 : r = ⟨sd, c.prec p0, cts, decide (sd = Side.sell)
          && co.reduceOnly.getD (decide (sd = Side.sell))⟩ := by
        simpa [reqsOf] using hr
      subst hr2
      constructor
      · intro hro
        show (decide (sd = Side.sell)
            && co.reduceOnly.getD (decide (sd = Side.sell)))
          = decide (sd = Side.sell)
        rw [hro, Option.getD_none]
        exact Bool.and_self _
      · intro v hro
        show (decide (sd = Side.sell)
            && co.reduceOnly.getD (decide (sd = Side.sell)))
          = (decide (sd = Side.sell) && v)
        rw [hro, Option.getD_some]

/-- Witness for C10 at a buy command with `reduceOnly` omitted: the
submitted request carries `reduceOnly = false`. -/
theorem claim_C10_witness :
    (Req.mk Side.buy 2000 1 false).reduceOnly
      = decide (Side.buy = Side.sell) :=
  (claim_C10_amended wCtx (initState false) wBuyHigh Side.buy 2000 1
    rfl rfl rfl rfl ⟨Side.buy, 2000, 1, false⟩
    (List.mem_singleton.2 rfl)).1 rfl

/-- Counterexample for C10 as frozen: a buy command with an explicit
`reduceOnly: true` is submitted WITHOUT `reduceOnly` in its params —
the explicit value is not honored for buys. -/
theorem claim_C10_cex :
    wBuyReduce.reduceOnly = some true
    ∧ reqsOf (processCmd wCtx (initState false) wBuyReduce)
        = [⟨Side.buy, 100, 1, false⟩] := by
  exact ⟨rfl, rfl⟩

end GridBot